import Mathlib

/-!
# DBCC, `2bsm.c`: the beSTORM back end

A shallow embedding of `signal2bsm`, `msg2bsm` and `dbc2bsm` (with their helpers
`indent` and `comment`) and the properties of the bit-layout reconciliation they
implement.

Conventions of the embedding.

* `unsigned` values are natural numbers below `UINT_MODULUS = 2 ^ 32`; every
  addition the C code performs on them is reduced modulo `UINT_MODULUS`
  (`uadd`).  The two subtractions of the source (`start_bit - last_bit` under
  `last_bit < start_bit`, `bit_length - 16` under `bit_length > 16`) cannot wrap.
* The output stream `FILE *o` is a `Sink`: the log of every write call made on
  it, each with a flag telling whether the call succeeded.  Which calls fail is
  fixed by a schedule `fails : Nat → Bool`, indexed by the number of calls made
  on the stream so far.
* A write call is recorded with its format and its arguments (`Write`), not as
  rendered text: `Write.BB d` is the call
  `fprintf(o, "...<BB Name=\"%s\" Bits=\"0\" Size=\"%d\" />\n", d.name, d.size)`.
  The `Size` and `PaddingSize` arguments are of type `unsigned` and go through
  the conversion `%d`; the number that conversion writes is `printedInt` of the
  argument, which is the argument itself only below `INT_LIMIT = 2 ^ 31`.
* C functions returning `int` return an `Int` here, paired with the sink they
  leave behind.
-/

namespace DBCC

/-! ## Data model -/

/-- The modulus of the C type `unsigned` (32 bits wide). -/
def UINT_MODULUS : Nat := 4294967296

/-- Addition on the C type `unsigned`: it wraps around at `UINT_MODULUS`. -/
def uadd (a b : Nat) : Nat := (a + b) % UINT_MODULUS

/-- The fields of `signal_t` that `2bsm.c` reads. -/
structure signal_t where
  name : String
  start_bit : Nat
  bit_length : Nat
  is_multiplexor : Bool
  is_multiplexed : Bool
  units : String
  deriving DecidableEq, Repr

/-- A `signal_t` whose `unsigned` fields are in the range of the type. -/
def signal_t.wf (sig : signal_t) : Prop :=
  sig.start_bit < UINT_MODULUS ∧ sig.bit_length < UINT_MODULUS

instance (sig : signal_t) : Decidable sig.wf := by
  unfold signal_t.wf; exact inferInstance

/-- The fields of `can_msg_t` that `2bsm.c` reads; `sigs` holds the
`signal_count` signals in declaration order. -/
structure can_msg_t where
  name : String
  id : Nat
  sigs : List signal_t
  deriving DecidableEq, Repr

/-- The fields of `dbc_t` that `2bsm.c` reads: the `message_count` messages. -/
structure dbc_t where
  messages : List can_msg_t
  deriving DecidableEq, Repr

/-- One `<BB Name=".." Bits="0" Size=".." />` element: the arguments of the
`fprintf` call that writes it. -/
structure Descriptor where
  name : String
  bits : Nat
  size : Nat
  deriving DecidableEq, Repr

/-- The write calls `2bsm.c` makes on its output stream. -/
inductive Write where
  /-- The call `fputc('\t', o)` of `indent`. -/
  | tab
  /-- The call `fputs("<!-- ", o)` of `comment`. -/
  | commentOpen
  /-- The call `vfprintf(o, fmt, args)` of `comment`, with the text it formats. -/
  | commentText (text : String)
  /-- The call `fputs(" -->\n", o)` of `comment`. -/
  | commentClose
  /-- The call `fprintf(output, BSM_PREFIX)`. -/
  | BSM_PREFIX
  /-- The call `fprintf(o, BSM_MESSAGE_PREFIX, msg->name, msg->id, msg->id, padding_size)`. -/
  | BSM_MESSAGE_PREFIX (name : String) (id : Nat) (padding_size : Nat)
  /-- One of the three `<BB .. />` calls of `signal2bsm`. -/
  | BB (d : Descriptor)
  /-- The call `fprintf(o, BSM_MESSAGE_SUFFIX)`. -/
  | BSM_MESSAGE_SUFFIX
  /-- The call `fprintf(output, BSM_SUFFIX)`. -/
  | BSM_SUFFIX
  deriving DecidableEq, Repr

/-- The output stream: every write call made on it so far, oldest first, with
`true` for a call that succeeded. -/
structure Sink where
  log : List (Write × Bool)
  deriving DecidableEq, Repr

/-- The empty stream. -/
def Sink.empty : Sink := ⟨[]⟩

/-- The write calls made on the stream, failed ones included. -/
def Sink.attempted (o : Sink) : List Write := o.log.map Prod.fst

/-- What the stream holds: the write calls that succeeded. -/
def Sink.written (o : Sink) : List Write := (o.log.filter Prod.snd).map Prod.fst

/-- One write call: it fails when the schedule says so for its position, and is
logged either way.  The flag returned is `true` on success. -/
def Sink.put (fails : Nat → Bool) (o : Sink) (w : Write) : Bool × Sink :=
  (!fails o.log.length, ⟨o.log ++ [(w, !fails o.log.length)]⟩)

/-- The schedule under which every write succeeds. -/
def noFailure : Nat → Bool := fun _ => false

/-- The descriptors among a sequence of write calls, in order. -/
def descriptors : List Write → List Descriptor
  | [] => []
  | Write.BB d :: ws => d :: descriptors ws
  | _ :: ws => descriptors ws

/-- The sum of the `Size` arguments of a descriptor sequence. -/
def totalSize (ds : List Descriptor) : Nat := (ds.map Descriptor.size).sum

/-- The first value above the range of the C type `int` (32 bits wide). -/
def INT_LIMIT : Nat := 2147483648

/-- What the conversion `%d` writes for an argument of type `unsigned`: the 32
bits of the argument read as a two's complement `int`.  Arguments below
`INT_LIMIT` are written as they are, the others come out negative. -/
def printedInt (n : Nat) : Int :=
  if n < INT_LIMIT then (n : Int) else (n : Int) - (UINT_MODULUS : Int)

/-- The `Size` value written for a descriptor (`Size="%d"`, source lines 115-118). -/
def Descriptor.writtenSize (d : Descriptor) : Int := printedInt d.size

/-- The `Size` values written for a descriptor sequence, in order. -/
def writtenSizes (ds : List Descriptor) : List Int := ds.map Descriptor.writtenSize

/-- The function `indent`: `depth` tabs, stopping at the first that fails. -/
def indent (fails : Nat → Bool) (o : Sink) : Nat → Int × Sink
  | 0 => (0, o)
  | depth + 1 =>
    let r := o.put fails Write.tab
    if !r.1 then (-1, r.2) else indent fails r.2 depth

/-- The function `comment`, called with the text its format expands to. -/
def comment (fails : Nat → Bool) (o : Sink) (depth : Nat) (text : String) : Int × Sink :=
  let r0 := indent fails o depth
  if r0.1 < 0 then (-1, r0.2) else
  let r1 := r0.2.put fails Write.commentOpen
  if !r1.1 then (-1, r1.2) else
  let r2 := r1.2.put fails (Write.commentText text)
  if !r2.1 then (-1, r2.2) else
  let r3 := r2.2.put fails Write.commentClose
  if !r3.1 then (-1, r3.2) else (0, r3.2)

/-- The function `signal2bsm`.  The results of its `fprintf` calls are not
looked at, and it returns 0.  The descriptors hold the arguments of the calls;
the `Size` written is `Descriptor.writtenSize`. -/
def signal2bsm (fails : Nat → Bool) (sig : signal_t) (o : Sink) : Int × Sink :=
  if sig.bit_length > 16 then
    let o1 := (o.put fails (Write.BB ⟨sig.name ++ " (LSB)", 0, 16⟩)).2
    let o2 := (o1.put fails (Write.BB ⟨sig.name ++ " (MSB)", 0, sig.bit_length - 16⟩)).2
    (0, o2)
  else
    (0, (o.put fails (Write.BB ⟨sig.name, 0, sig.bit_length⟩)).2)

/-- The first loop of `msg2bsm` (source lines 133-145), on the pair
`(last_bit, padding_size)`. -/
def sizingSweep : List signal_t → Nat × Nat → Nat × Nat
  | [], st => st
  | sig :: rest, (last_bit, padding_size) =>
    let padding_size :=
      if last_bit < sig.start_bit then uadd padding_size (sig.start_bit - last_bit)
      else padding_size
    sizingSweep rest (uadd sig.start_bit sig.bit_length, uadd padding_size sig.bit_length)

/-- The value of `padding_size` when the first loop of `msg2bsm` ends. -/
def raw_size (sigs : List signal_t) : Nat := (sizingSweep sigs (0, 0)).2

/-- The `if`/`else if` chain of `msg2bsm` (source lines 147-155). -/
def quantize (padding_size : Nat) : Nat :=
  if padding_size ≤ 8 then 8
  else if padding_size ≤ 16 then 16
  else if padding_size ≤ 24 then 24
  else if padding_size ≤ 32 then 32
  else padding_size

/-- The value `msg2bsm` passes for `PaddingSize`. -/
def padding_size (msg : can_msg_t) : Nat := quantize (raw_size msg.sigs)

/-- The record `unknownsig` that the second loop of `msg2bsm` builds for a void
(source lines 176-182); the fields not assigned are zero. -/
def unknownsig (last_bit : Nat) (sig : signal_t) : signal_t where
  name := "UNKNOWN"
  start_bit := last_bit
  bit_length := sig.start_bit - last_bit
  is_multiplexor := false
  is_multiplexed := false
  units := ""

/-- Modelled from the spec: the helper `error` of `util.c`, which is not among
the sources.  It reports "multiple multiplexor signals in one message" on the
error stream and comes back ("error propagation via sentinel return codes"), so
it leaves the output stream as it is and `msg2bsm` goes on to `return -1`. -/
def error (o : Sink) : Sink := o

/-- The variables of the second loop of `msg2bsm`: `last_bit`, `multiplexor`
and the stream. -/
structure BlockState where
  last_bit : Nat
  multiplexor : Option signal_t
  o : Sink
  deriving DecidableEq, Repr

/-- Where the second loop of `msg2bsm` stands: it has left `msg2bsm` through a
`return`, or it is still running. -/
inductive Outcome where
  | returned (rc : Int) (o : Sink)
  | running (st : BlockState)
  deriving DecidableEq, Repr

/-- The second loop of `msg2bsm` (source lines 161-193) over the signals still
to visit. -/
def blockLoop (fails : Nat → Bool) : List signal_t → BlockState → Outcome
  | [], st => Outcome.running st
  | sig :: rest, st =>
    if sig.is_multiplexor then
      match st.multiplexor with
      | some _ => Outcome.returned (-1) (error st.o)
      | none => blockLoop fails rest ⟨st.last_bit, some sig, st.o⟩
    else if sig.is_multiplexed then
      blockLoop fails rest st
    else if st.last_bit < sig.start_bit then
      let r1 := signal2bsm fails (unknownsig st.last_bit sig) st.o
      if r1.1 < 0 then Outcome.returned (-1) r1.2 else
      let r2 := signal2bsm fails sig r1.2
      if r2.1 < 0 then Outcome.returned (-1) r2.2 else
      blockLoop fails rest ⟨uadd sig.start_bit sig.bit_length, st.multiplexor, r2.2⟩
    else
      let r2 := signal2bsm fails sig st.o
      if r2.1 < 0 then Outcome.returned (-1) r2.2 else
      blockLoop fails rest ⟨uadd sig.start_bit sig.bit_length, st.multiplexor, r2.2⟩

/-- The function `msg2bsm`.  The message-open write holds the arguments of the
call; the `PaddingSize` written is `writtenPaddingSize`. -/
def msg2bsm (fails : Nat → Bool) (msg : can_msg_t) (o : Sink) (depth : Nat) : Int × Sink :=
  let o0 := (indent fails o depth).2
  let o1 := (o0.put fails
    (Write.BSM_MESSAGE_PREFIX msg.name msg.id (quantize (raw_size msg.sigs)))).2
  match blockLoop fails msg.sigs ⟨0, none, o1⟩ with
  | Outcome.returned rc o2 => (rc, o2)
  | Outcome.running st =>
    let r := st.o.put fails Write.BSM_MESSAGE_SUFFIX
    if !r.1 then (-1, r.2) else (0, r.2)

/-- The loop of `dbc2bsm` over the messages and what follows it (source lines
212-220). -/
def messagesLoop (fails : Nat → Bool) : List can_msg_t → Sink → Int × Sink
  | [], o => (0, (o.put fails Write.BSM_SUFFIX).2)
  | msg :: rest, o =>
    let r := msg2bsm fails msg o 1
    if r.1 < 0 then (-1, r.2) else messagesLoop fails rest r.2

/-- The function `dbc2bsm`; `stamp` is the text of `asctime(timeinfo)`. -/
def dbc2bsm (fails : Nat → Bool) (dbc : dbc_t) (output : Sink) (use_time_stamps : Bool)
    (stamp : String) : Int × Sink :=
  let o0 := (comment fails output 0
    "Generated by dbcc (see https://github.com/howerj/dbcc)").2
  let o1 := (o0.put fails Write.BSM_PREFIX).2
  let o2 := if use_time_stamps then (comment fails o1 0 ("Generated on: " ++ stamp)).2 else o1
  messagesLoop fails dbc.messages o2

/-! ## Reference definitions, after the specification -/

/-- The splitting rule of the Block Emitter (specification, section 4.2): a
block of at most 16 bits is one descriptor of that length under the block's
name, a wider one is a low descriptor of 16 bits named with the suffix
`" (LSB)"` followed by a high descriptor of the remaining bits named with the
suffix `" (MSB)"`. -/
def blockDescriptors (name : String) (bit_length : Nat) : List Descriptor :=
  if bit_length > 16 then
    [⟨name ++ " (LSB)", 0, 16⟩, ⟨name ++ " (MSB)", 0, bit_length - 16⟩]
  else [⟨name, 0, bit_length⟩]

/-- A signal that is neither multiplexor nor multiplexed. -/
def signal_t.plain (sig : signal_t) : Bool := !sig.is_multiplexor && !sig.is_multiplexed

/-- The message has at most one signal flagged `is_multiplexor`. -/
def atMostOneMultiplexor (sigs : List signal_t) : Prop :=
  sigs.countP (fun sig => sig.is_multiplexor) ≤ 1

instance (sigs : List signal_t) : Decidable (atMostOneMultiplexor sigs) := by
  unfold atMostOneMultiplexor; exact inferInstance

/-- The gap block before a signal: a block named `"UNKNOWN"` of length
`start_bit - last_bit`, present iff `start_bit > last_bit`. -/
def gapDescriptors (last_bit : Nat) (sig : signal_t) : List Descriptor :=
  if sig.start_bit > last_bit then blockDescriptors "UNKNOWN" (sig.start_bit - last_bit)
  else []

/-- The reference layout of a list of plain signals from a given `last_bit`: for
each signal in declaration order its gap block, then its own block; `last_bit`
becomes `start_bit + bit_length` of the signal, computed in `unsigned`. -/
def referenceBlocks : Nat → List signal_t → List Descriptor
  | _, [] => []
  | last_bit, sig :: rest =>
    gapDescriptors last_bit sig ++ blockDescriptors sig.name sig.bit_length
      ++ referenceBlocks (uadd sig.start_bit sig.bit_length) rest

/-- The reference layout with `last_bit` the exact sum `start_bit + bit_length`. -/
def referenceBlocksExact : Nat → List signal_t → List Descriptor
  | _, [] => []
  | last_bit, sig :: rest =>
    gapDescriptors last_bit sig ++ blockDescriptors sig.name sig.bit_length
      ++ referenceBlocksExact (sig.start_bit + sig.bit_length) rest

/-- The reference layout of a message: that of its plain signals, from
`last_bit = 0`. -/
def referenceLayout (sigs : List signal_t) : List Descriptor :=
  referenceBlocks 0 (sigs.filter signal_t.plain)

/-- The value of `last_bit` after a list of plain signals: `start_bit +
bit_length` of the last one, in `unsigned`. -/
def lastBitAfter : Nat → List signal_t → Nat
  | last_bit, [] => last_bit
  | _, sig :: rest => lastBitAfter (uadd sig.start_bit sig.bit_length) rest

/-- The first sweep as the specification words it, in exact arithmetic: from
`last_bit = 0`, each signal adds `start_bit - last_bit` when `start_bit >
last_bit`, then adds `bit_length`, and sets `last_bit = start_bit + bit_length`. -/
def specSweep : List signal_t → Nat → Nat → Nat
  | [], _, acc => acc
  | sig :: rest, last_bit, acc =>
    specSweep rest (sig.start_bit + sig.bit_length)
      ((if sig.start_bit > last_bit then acc + (sig.start_bit - last_bit) else acc)
        + sig.bit_length)

/-- The `raw_size` of the specification, in exact arithmetic. -/
def specRawSize (sigs : List signal_t) : Nat := specSweep sigs 0 0

/-- The sum of the bit lengths of the signals. -/
def sumBitLengths (sigs : List signal_t) : Nat := (sigs.map signal_t.bit_length).sum

/-- The bits left unassigned before each signal of a list sorted by position:
from the end of the previous signal (`last_bit`, 0 at the start) to the
signal's `start_bit`. -/
def gapBits : Nat → List signal_t → Nat
  | _, [] => 0
  | last_bit, sig :: rest =>
    (sig.start_bit - last_bit) + gapBits (sig.start_bit + sig.bit_length) rest

/-- Signals in declaration order that do not overlap and are sorted by
position: each starts at or after the end of the one before. -/
def sortedDisjoint : List signal_t → Prop
  | [] => True
  | [_] => True
  | a :: b :: rest => a.start_bit + a.bit_length ≤ b.start_bit ∧ sortedDisjoint (b :: rest)

/-- Whether a signal list is `sortedDisjoint` can be computed. -/
def sortedDisjoint.dec : (sigs : List signal_t) → Decidable (sortedDisjoint sigs)
  | [] => isTrue trivial
  | [_] => isTrue trivial
  | a :: b :: rest =>
    match Nat.decLe (a.start_bit + a.bit_length) b.start_bit, sortedDisjoint.dec (b :: rest) with
    | isTrue h1, isTrue h2 => isTrue ⟨h1, h2⟩
    | isFalse h1, _ => isFalse (fun h => h1 h.1)
    | _, isFalse h2 => isFalse (fun h => h2 h.2)

instance (sigs : List signal_t) : Decidable (sortedDisjoint sigs) := sortedDisjoint.dec sigs

/-- The end of the last signal of a list, `start_bit + bit_length`, in exact
arithmetic; `last_bit` when the list is empty. -/
def frameEnd : Nat → List signal_t → Nat
  | last_bit, [] => last_bit
  | _, sig :: rest => frameEnd (sig.start_bit + sig.bit_length) rest

/-- The four values the specification allows for `PaddingSize`. -/
def paddingValues : List Nat := [8, 16, 24, 32]

/-- The signals declared before the second multiplexor signal of the list (all
of them when there is no second one); `k` counts the multiplexors already met. -/
def beforeSecondMultiplexor : Nat → List signal_t → List signal_t
  | _, [] => []
  | k, sig :: rest =>
    if sig.is_multiplexor then
      if 1 ≤ k then [] else sig :: beforeSecondMultiplexor 1 rest
    else sig :: beforeSecondMultiplexor k rest

/-- The three write calls of `comment` at depth 0, with the text of the comment. -/
def commentWrites (text : String) : List Write :=
  [Write.commentOpen, Write.commentText text, Write.commentClose]

/-- The text of the provenance comment of `dbc2bsm`. -/
def provenance : String := "Generated by dbcc (see https://github.com/howerj/dbcc)"

/-- The rendering of a message that reconciles, at depth 1: the tab, the
message-open template with the padding size, the descriptors of the reference
layout and the message-close template. -/
def messageWrites (msg : can_msg_t) : List Write :=
  Write.tab :: Write.BSM_MESSAGE_PREFIX msg.name msg.id (padding_size msg)
    :: ((referenceLayout msg.sigs).map Write.BB ++ [Write.BSM_MESSAGE_SUFFIX])

/-- What is written of a message with a second multiplexor, at depth 1: the
tab, the message-open template and the descriptors of the signals declared
before the second multiplexor. -/
def abortedMessageWrites (msg : can_msg_t) : List Write :=
  Write.tab :: Write.BSM_MESSAGE_PREFIX msg.name msg.id (padding_size msg)
    :: (referenceLayout (beforeSecondMultiplexor 0 msg.sigs)).map Write.BB

/-- What `dbc2bsm` writes before the first message: the provenance comment, the
document prefix, and the timestamp comment when `use_time_stamps` is set. -/
def documentHeader (use_time_stamps : Bool) (stamp : String) : List Write :=
  commentWrites provenance ++ [Write.BSM_PREFIX]
    ++ (if use_time_stamps then commentWrites ("Generated on: " ++ stamp) else [])

/-- The schedule under which write call number `k` on the stream fails and every
other one succeeds. -/
def failAt (k : Nat) : Nat → Bool := fun n => n == k

/-! ## Auxiliary definitions -/

/-- The log entries of a run of write calls of which the first is call number
`n` on the stream. -/
def stamp (fails : Nat → Bool) : Nat → List Write → List (Write × Bool)
  | _, [] => []
  | n, w :: ws => (w, !fails n) :: stamp fails (n + 1) ws

/-- The write calls `msg2bsm` makes for a message on a fresh stream. -/
def emitted (fails : Nat → Bool) (msg : can_msg_t) (depth : Nat) : List Write :=
  (msg2bsm fails msg Sink.empty depth).2.attempted

/-- The number of multiplexors seen so far, as the loop records it. -/
def seen (multiplexor : Option signal_t) : Nat := if multiplexor.isSome then 1 else 0

/-- The stream `o1` is the stream `o` after the further write calls `ws`. -/
def Sink.gains (fails : Nat → Bool) (o o1 : Sink) (ws : List Write) : Prop :=
  o1.log = o.log ++ stamp fails o.log.length ws

/-! ## Example messages -/

/-- A signal that is neither multiplexor nor multiplexed, with no unit. -/
def plainSignal (name : String) (start_bit bit_length : Nat) : signal_t :=
  ⟨name, start_bit, bit_length, false, false, ""⟩

/-- A multiplexor signal, with no unit. -/
def multiplexorSignal (name : String) (start_bit bit_length : Nat) : signal_t :=
  ⟨name, start_bit, bit_length, true, false, ""⟩

/-- A multiplexed signal, with no unit. -/
def multiplexedSignal (name : String) (start_bit bit_length : Nat) : signal_t :=
  ⟨name, start_bit, bit_length, false, true, ""⟩

/-- The message `Speed`, id 100, with the single signal `kph` at bit 0, 12 bits. -/
def exampleSpeed : can_msg_t := ⟨"Speed", 100, [plainSignal "kph" 0 12]⟩

/-- A message with one 8 bit signal `S` at bit 8: a void of 8 bits before it. -/
def exampleGap : can_msg_t := ⟨"M", 1, [plainSignal "S" 8 8]⟩

/-- A message with one 8 bit signal `S` at bit 20: a void of 20 bits before it. -/
def exampleWideGap : can_msg_t := ⟨"M", 1, [plainSignal "S" 20 8]⟩

/-- A message with two multiplexor signals, after a plain signal `A`. -/
def exampleTwoMultiplexors : can_msg_t :=
  ⟨"M", 1, [plainSignal "A" 0 8, multiplexorSignal "m1" 8 4, multiplexorSignal "m2" 12 4,
    plainSignal "B" 16 8]⟩

/-- A message with one 40 bit signal `A` at bit 0. -/
def exampleOversized : can_msg_t := ⟨"M", 1, [plainSignal "A" 0 40]⟩

/-- A message with a multiplexor and a multiplexed signal between two plain ones. -/
def exampleMultiplexed : can_msg_t :=
  ⟨"M", 1, [plainSignal "A" 0 8, multiplexorSignal "mode" 8 4, multiplexedSignal "x" 12 4,
    plainSignal "B" 16 8]⟩

/-- A message with one 28 bit signal `A` at bit 0. -/
def exampleWide : can_msg_t := ⟨"M", 1, [plainSignal "A" 0 28]⟩

/-- A message with one 8 bit signal `A` at bit 4294967295, the last position the
type `unsigned` can hold. -/
def exampleWrapped : can_msg_t := ⟨"M", 1, [plainSignal "A" 4294967295 8]⟩

/-- A document of two messages that reconcile. -/
def exampleDocument : dbc_t := ⟨[exampleSpeed, exampleGap]⟩

/-- A document whose second message has two multiplexors. -/
def exampleAbortingDocument : dbc_t := ⟨[exampleSpeed, exampleTwoMultiplexors, exampleGap]⟩

theorem stamp_append (fails : Nat → Bool) (n : Nat) (a b : List Write) :
    stamp fails n (a ++ b) = stamp fails n a ++ stamp fails (n + a.length) b := by
  induction a generalizing n with
  | nil => simp [stamp]
  | cons w ws ih =>
    simp [stamp, ih, Nat.add_assoc, Nat.add_comm 1]

theorem stamp_length (fails : Nat → Bool) (n : Nat) (ws : List Write) :
    (stamp fails n ws).length = ws.length := by
  induction ws generalizing n with
  | nil => rfl
  | cons w ws ih => simp [stamp, ih]

theorem stamp_map_fst (fails : Nat → Bool) (n : Nat) (ws : List Write) :
    (stamp fails n ws).map Prod.fst = ws := by
  induction ws generalizing n with
  | nil => rfl
  | cons w ws ih => simp [stamp, ih]

theorem stamp_noFailure_written (n : Nat) (ws : List Write) :
    ((stamp noFailure n ws).filter Prod.snd).map Prod.fst = ws := by
  induction ws generalizing n with
  | nil => rfl
  | cons w ws ih => simp [stamp, noFailure, ih]

theorem put_log (fails : Nat → Bool) (o : Sink) (w : Write) :
    (o.put fails w).2.log = o.log ++ stamp fails o.log.length [w] := rfl

theorem descriptors_append (a b : List Write) :
    descriptors (a ++ b) = descriptors a ++ descriptors b := by
  induction a with
  | nil => rfl
  | cons w ws ih => cases w <;> simp [descriptors, ih]

theorem descriptors_map_BB (ds : List Descriptor) :
    descriptors (ds.map Write.BB) = ds := by
  induction ds with
  | nil => rfl
  | cons d ds ih => simp [descriptors, ih]

theorem totalSize_append (a b : List Descriptor) :
    totalSize (a ++ b) = totalSize a + totalSize b := by
  simp [totalSize]

theorem totalSize_blockDescriptors (name : String) (bit_length : Nat) :
    totalSize (blockDescriptors name bit_length) = bit_length := by
  unfold blockDescriptors totalSize
  split
  · simp; omega
  · simp

/-! ## Lemmas on `signal2bsm` and the second loop -/

theorem signal2bsm_fst (fails : Nat → Bool) (sig : signal_t) (o : Sink) :
    (signal2bsm fails sig o).1 = 0 := by
  unfold signal2bsm; split <;> rfl

theorem signal2bsm_log (fails : Nat → Bool) (sig : signal_t) (o : Sink) :
    (signal2bsm fails sig o).2.log
      = o.log ++ stamp fails o.log.length
          ((blockDescriptors sig.name sig.bit_length).map Write.BB) := by
  unfold signal2bsm blockDescriptors
  split <;> simp [put_log, stamp, Sink.put]

theorem blockLoop_append (fails : Nat → Bool) (a b : List signal_t) (st : BlockState) :
    blockLoop fails (a ++ b) st
      = match blockLoop fails a st with
        | Outcome.returned rc o => Outcome.returned rc o
        | Outcome.running st1 => blockLoop fails b st1 := by
  induction a generalizing st with
  | nil => simp [blockLoop]
  | cons sig rest ih =>
    simp only [List.cons_append, blockLoop, signal2bsm_fst]
    split
    · cases st.multiplexor <;> simp [ih]
    · split
      · exact ih _
      · split <;> simp [ih]

theorem seen_none : seen none = 0 := rfl

theorem seen_some (sig : signal_t) : seen (some sig) = 1 := rfl

theorem countP_multiplexor_cons (sig : signal_t) (rest : List signal_t) :
    (sig :: rest).countP (fun sig => sig.is_multiplexor)
      = rest.countP (fun sig => sig.is_multiplexor) + (if sig.is_multiplexor then 1 else 0) := by
  rw [List.countP_cons]

theorem blockLoop_running (fails : Nat → Bool) (sigs : List signal_t) (st : BlockState)
    (h : seen st.multiplexor + sigs.countP (fun sig => sig.is_multiplexor) ≤ 1) :
    ∃ mx, seen mx = seen st.multiplexor + sigs.countP (fun sig => sig.is_multiplexor) ∧
      blockLoop fails sigs st
        = Outcome.running ⟨lastBitAfter st.last_bit (sigs.filter signal_t.plain), mx,
            ⟨st.o.log ++ stamp fails st.o.log.length
              ((referenceBlocks st.last_bit (sigs.filter signal_t.plain)).map Write.BB)⟩⟩ := by
  induction sigs generalizing st with
  | nil => exact ⟨st.multiplexor, by simp, by simp [blockLoop, lastBitAfter, referenceBlocks, stamp]⟩
  | cons sig rest ih =>
    rw [countP_multiplexor_cons] at h ⊢
    by_cases hm : sig.is_multiplexor = true
    · have hp : sig.plain = false := by simp [signal_t.plain, hm]
      simp only [hm, if_true] at h ⊢
      have hnone : st.multiplexor = none := by
        cases hs : st.multiplexor with
        | none => rfl
        | some m => rw [hs, seen_some] at h; omega
      rw [hnone, seen_none] at h ⊢
      have h1 : seen (some sig) + rest.countP (fun sig => sig.is_multiplexor) ≤ 1 := by
        rw [seen_some]; omega
      obtain ⟨mx, hmx, hrun⟩ := ih ⟨st.last_bit, some sig, st.o⟩ h1
      refine ⟨mx, ?_, ?_⟩
      · rw [hmx, seen_some]; omega
      · simp only [blockLoop, hm, if_true, hnone, List.filter_cons, hp]
        exact hrun
    · have hm0 : sig.is_multiplexor = false := by simpa using hm
      simp only [hm0, Bool.false_eq_true, if_false, Nat.add_zero] at h ⊢
      by_cases hd : sig.is_multiplexed = true
      · have hp : sig.plain = false := by simp [signal_t.plain, hd]
        obtain ⟨mx, hmx, hrun⟩ := ih st h
        refine ⟨mx, hmx, ?_⟩
        simp only [blockLoop, hm0, hd, Bool.false_eq_true, if_false, if_true, List.filter_cons, hp]
        exact hrun
      · have hd0 : sig.is_multiplexed = false := by simpa using hd
        have hp : sig.plain = true := by simp [signal_t.plain, hm0, hd0]
        by_cases hgap : st.last_bit < sig.start_bit
        · obtain ⟨mx, hmx, hrun⟩ := ih
            ⟨uadd sig.start_bit sig.bit_length, st.multiplexor,
              (signal2bsm fails sig (signal2bsm fails (unknownsig st.last_bit sig) st.o).2).2⟩ h
          refine ⟨mx, hmx, ?_⟩
          simp only [blockLoop, hm0, hd0, hgap, signal2bsm_fst, Bool.false_eq_true, if_false,
            if_true, List.filter_cons, hp, lt_irrefl]
          rw [hrun]
          simp [lastBitAfter, referenceBlocks, gapDescriptors, hgap,
            signal2bsm_log, unknownsig, stamp_append, stamp_length, Nat.add_assoc]
        · obtain ⟨mx, hmx, hrun⟩ := ih
            ⟨uadd sig.start_bit sig.bit_length, st.multiplexor, (signal2bsm fails sig st.o).2⟩ h
          refine ⟨mx, hmx, ?_⟩
          simp only [blockLoop, hm0, hd0, hgap, signal2bsm_fst, Bool.false_eq_true, if_false,
            List.filter_cons, hp, lt_irrefl, if_true]
          rw [hrun]
          simp [lastBitAfter, referenceBlocks, gapDescriptors, hgap,
            signal2bsm_log, stamp_append, stamp_length, Nat.add_assoc]

theorem blockLoop_returned (fails : Nat → Bool) (sigs : List signal_t) (st : BlockState)
    (h : 2 ≤ seen st.multiplexor + sigs.countP (fun sig => sig.is_multiplexor)) :
    ∃ o1, blockLoop fails sigs st = Outcome.returned (-1) o1 := by
  induction sigs generalizing st with
  | nil =>
    exfalso
    cases hs : st.multiplexor <;> simp [hs, seen] at h
  | cons sig rest ih =>
    rw [countP_multiplexor_cons] at h
    by_cases hm : sig.is_multiplexor = true
    · simp only [hm, if_true] at h
      cases hs : st.multiplexor with
      | none =>
        rw [hs, seen_none] at h
        obtain ⟨o1, ho1⟩ := ih ⟨st.last_bit, some sig, st.o⟩ (by rw [seen_some]; omega)
        exact ⟨o1, by simp only [blockLoop, hm, if_true, hs]; exact ho1⟩
      | some m => exact ⟨error st.o, by simp only [blockLoop, hm, if_true, hs]⟩
    · have hm0 : sig.is_multiplexor = false := by simpa using hm
      simp only [hm0, Bool.false_eq_true, if_false, Nat.add_zero] at h
      simp only [blockLoop, hm0, Bool.false_eq_true, if_false, signal2bsm_fst, lt_irrefl]
      split
      · exact ih st h
      · split
        · exact ih ⟨_, st.multiplexor, _⟩ h
        · exact ih ⟨_, st.multiplexor, _⟩ h

theorem indent_noFailure_log (o : Sink) (depth : Nat) :
    (indent noFailure o depth).2.log
      = o.log ++ stamp noFailure o.log.length (List.replicate depth Write.tab) := by
  induction depth generalizing o with
  | zero => simp [indent, stamp]
  | succ n ih =>
    simp only [indent, Sink.put, noFailure, Bool.not_false, Bool.not_true, Bool.false_eq_true,
      if_false]
    rw [ih]
    simp [List.replicate_succ, stamp, noFailure]

theorem written_append_stamp (o : Sink) (ws : List Write) :
    (Sink.mk (o.log ++ stamp noFailure o.log.length ws)).written = o.written ++ ws := by
  simp [Sink.written, stamp_noFailure_written]

theorem msg2bsm_log (fails : Nat → Bool) (msg : can_msg_t) (o : Sink) (depth : Nat)
    (h : atMostOneMultiplexor msg.sigs) :
    (msg2bsm fails msg o depth).2.log
      = (indent fails o depth).2.log ++ stamp fails (indent fails o depth).2.log.length
          (Write.BSM_MESSAGE_PREFIX msg.name msg.id (padding_size msg)
            :: ((referenceLayout msg.sigs).map Write.BB ++ [Write.BSM_MESSAGE_SUFFIX])) := by
  obtain ⟨mx, -, hrun⟩ := blockLoop_running fails msg.sigs
    ⟨0, none, ((indent fails o depth).2.put fails
      (Write.BSM_MESSAGE_PREFIX msg.name msg.id (quantize (raw_size msg.sigs)))).2⟩
    (by simpa [seen] using h)
  unfold msg2bsm
  simp only [hrun]
  split <;>
    simp [put_log, stamp, stamp_append, stamp_length, referenceLayout, padding_size,
      Nat.add_assoc, Nat.add_comm 1]

theorem msg2bsm_noFailure_fst (msg : can_msg_t) (o : Sink) (depth : Nat) :
    (msg2bsm noFailure msg o depth).1
      = if 2 ≤ msg.sigs.countP (fun sig => sig.is_multiplexor) then -1 else 0 := by
  by_cases h : 2 ≤ msg.sigs.countP (fun sig => sig.is_multiplexor)
  · obtain ⟨o1, ho1⟩ := blockLoop_returned noFailure msg.sigs
      ⟨0, none, ((indent noFailure o depth).2.put noFailure
        (Write.BSM_MESSAGE_PREFIX msg.name msg.id (quantize (raw_size msg.sigs)))).2⟩
      (by simpa [seen] using h)
    unfold msg2bsm
    simp only [ho1, h, if_true]
  · obtain ⟨mx, -, hrun⟩ := blockLoop_running noFailure msg.sigs
      ⟨0, none, ((indent noFailure o depth).2.put noFailure
        (Write.BSM_MESSAGE_PREFIX msg.name msg.id (quantize (raw_size msg.sigs)))).2⟩
      (by simp only [seen_none]; omega)
    unfold msg2bsm
    simp only [hrun, h, if_false]
    simp [Sink.put, noFailure]

theorem indent_log (fails : Nat → Bool) (o : Sink) (depth : Nat) :
    ∃ k, k ≤ depth ∧ (indent fails o depth).2.log
      = o.log ++ stamp fails o.log.length (List.replicate k Write.tab) := by
  induction depth generalizing o with
  | zero => exact ⟨0, le_refl _, by simp [indent, stamp]⟩
  | succ n ih =>
    simp only [indent]
    split
    · exact ⟨1, by omega, by simp [put_log]⟩
    · obtain ⟨k, hk, hlog⟩ := ih (o.put fails Write.tab).2
      refine ⟨k + 1, by omega, ?_⟩
      rw [hlog]
      simp [put_log, stamp, List.replicate_succ, Nat.add_comm 1]

theorem descriptors_replicate_tab (k : Nat) :
    descriptors (List.replicate k Write.tab) = [] := by
  induction k with
  | zero => rfl
  | succ n ih => simp [List.replicate_succ, descriptors, ih]

theorem descriptors_indent (fails : Nat → Bool) (o : Sink) (depth : Nat) :
    descriptors (indent fails o depth).2.attempted = descriptors o.attempted := by
  obtain ⟨k, -, hlog⟩ := indent_log fails o depth
  simp [Sink.attempted, hlog, stamp_map_fst, descriptors_append, descriptors_replicate_tab]

theorem msg2bsm_attempted (fails : Nat → Bool) (msg : can_msg_t) (o : Sink) (depth : Nat)
    (h : atMostOneMultiplexor msg.sigs) :
    (msg2bsm fails msg o depth).2.attempted
      = (indent fails o depth).2.attempted
          ++ Write.BSM_MESSAGE_PREFIX msg.name msg.id (padding_size msg)
            :: ((referenceLayout msg.sigs).map Write.BB ++ [Write.BSM_MESSAGE_SUFFIX]) := by
  simp only [Sink.attempted, msg2bsm_log fails msg o depth h, List.map_append, stamp_map_fst]

theorem descriptors_emitted (fails : Nat → Bool) (msg : can_msg_t) (depth : Nat)
    (h : atMostOneMultiplexor msg.sigs) :
    descriptors (emitted fails msg depth) = referenceLayout msg.sigs := by
  unfold emitted
  rw [msg2bsm_attempted fails msg Sink.empty depth h, descriptors_append, descriptors_indent]
  simp [descriptors, descriptors_append, descriptors_map_BB, Sink.attempted, Sink.empty]

theorem referenceBlocks_eq_exact (last_bit : Nat) (sigs : List signal_t)
    (h : ∀ sig ∈ sigs, sig.start_bit + sig.bit_length < UINT_MODULUS) :
    referenceBlocks last_bit sigs = referenceBlocksExact last_bit sigs := by
  induction sigs generalizing last_bit with
  | nil => rfl
  | cons sig rest ih =>
    have h0 := h sig (List.mem_cons_self _ _)
    simp only [referenceBlocks, referenceBlocksExact, uadd, Nat.mod_eq_of_lt h0]
    rw [ih _ (fun s hs => h s (List.mem_cons_of_mem _ hs))]

theorem countP_multiplexor_filter_plain (sigs : List signal_t) :
    (sigs.filter signal_t.plain).countP (fun sig => sig.is_multiplexor) = 0 := by
  rw [List.countP_eq_zero]
  intro sig hsig
  have := (List.mem_filter.mp hsig).2
  simp [signal_t.plain] at this
  simp [this.1]

/-! ## Lemmas on the first loop -/

theorem specSweep_mono (sigs : List signal_t) (last_bit acc : Nat) :
    acc ≤ specSweep sigs last_bit acc := by
  induction sigs generalizing last_bit acc with
  | nil => exact le_refl _
  | cons sig rest ih =>
    simp only [specSweep]
    refine le_trans ?_ (ih _ _)
    split <;> omega

theorem sizingSweep_eq_specSweep (sigs : List signal_t) (last_bit acc : Nat)
    (hinv : last_bit ≤ acc) (hfit : specSweep sigs last_bit acc < UINT_MODULUS) :
    (sizingSweep sigs (last_bit, acc)).2 = specSweep sigs last_bit acc := by
  induction sigs generalizing last_bit acc with
  | nil => rfl
  | cons sig rest ih =>
    simp only [specSweep] at hfit ⊢
    have hmono := specSweep_mono rest (sig.start_bit + sig.bit_length)
      ((if sig.start_bit > last_bit then acc + (sig.start_bit - last_bit) else acc)
        + sig.bit_length)
    simp only [sizingSweep, uadd]
    by_cases hgap : last_bit < sig.start_bit
    · simp only [hgap, if_true, gt_iff_lt] at hfit hmono ⊢
      rw [Nat.mod_eq_of_lt (by omega : acc + (sig.start_bit - last_bit) < UINT_MODULUS),
        Nat.mod_eq_of_lt (by omega : sig.start_bit + sig.bit_length < UINT_MODULUS),
        Nat.mod_eq_of_lt
          (by omega : acc + (sig.start_bit - last_bit) + sig.bit_length < UINT_MODULUS)]
      exact ih _ _ (by omega) hfit
    · simp only [hgap, if_false, gt_iff_lt] at hfit hmono ⊢
      rw [Nat.mod_eq_of_lt (by omega : sig.start_bit + sig.bit_length < UINT_MODULUS),
        Nat.mod_eq_of_lt (by omega : acc + sig.bit_length < UINT_MODULUS)]
      exact ih _ _ (by omega) hfit

theorem raw_size_eq_specRawSize (sigs : List signal_t)
    (hfit : specRawSize sigs < UINT_MODULUS) : raw_size sigs = specRawSize sigs :=
  sizingSweep_eq_specSweep sigs 0 0 (le_refl _) hfit

theorem quantize_isLeast (raw : Nat) (h : raw ≤ 32) :
    IsLeast {v : Nat | v ∈ paddingValues ∧ raw ≤ v} (quantize raw) := by
  constructor
  · simp only [Set.mem_setOf_eq, paddingValues, quantize]
    split_ifs <;> simp <;> omega
  · intro v hv
    simp only [Set.mem_setOf_eq, paddingValues, List.mem_cons, List.mem_singleton,
      List.mem_nil_iff, or_false] at hv
    simp only [quantize]
    split_ifs <;> omega

/-! ## Lemmas on a message with a second multiplexor -/

theorem beforeSecondMultiplexor_split (sigs : List signal_t) (k : Nat) (hk : k ≤ 1)
    (h : 2 ≤ k + sigs.countP (fun sig => sig.is_multiplexor)) :
    ∃ m2 post, sigs = beforeSecondMultiplexor k sigs ++ m2 :: post
      ∧ m2.is_multiplexor = true
      ∧ k + (beforeSecondMultiplexor k sigs).countP (fun sig => sig.is_multiplexor) = 1 := by
  induction sigs generalizing k with
  | nil => simp at h; omega
  | cons sig rest ih =>
    rw [countP_multiplexor_cons] at h
    by_cases hm : sig.is_multiplexor = true
    · simp only [hm, if_true] at h
      by_cases hk1 : 1 ≤ k
      · exact ⟨sig, rest, by simp [beforeSecondMultiplexor, hm, hk1], hm,
          by simp [beforeSecondMultiplexor, hm, hk1]; omega⟩
      · obtain ⟨m2, post, hsplit, hm2, hcount⟩ := ih 1 (le_refl _) (by omega)
        refine ⟨m2, post, ?_, hm2, ?_⟩
        · simp only [beforeSecondMultiplexor, hm, hk1, if_true, if_false, List.cons_append]
          rw [← hsplit]
        · simp only [beforeSecondMultiplexor, hm, hk1, if_true, if_false,
            countP_multiplexor_cons]
          omega
    · have hm0 : sig.is_multiplexor = false := by simpa using hm
      simp only [hm0, Bool.false_eq_true, if_false, Nat.add_zero] at h
      obtain ⟨m2, post, hsplit, hm2, hcount⟩ := ih k hk h
      refine ⟨m2, post, ?_, hm2, ?_⟩
      · simp only [beforeSecondMultiplexor, hm0, Bool.false_eq_true, if_false, List.cons_append]
        rw [← hsplit]
      · simp only [beforeSecondMultiplexor, hm0, Bool.false_eq_true, if_false,
          countP_multiplexor_cons, Nat.add_zero]
        exact hcount

theorem beforeSecondMultiplexor_eq_self (sigs : List signal_t) (k : Nat)
    (h : k + sigs.countP (fun sig => sig.is_multiplexor) ≤ 1) :
    beforeSecondMultiplexor k sigs = sigs := by
  induction sigs generalizing k with
  | nil => rfl
  | cons sig rest ih =>
    rw [countP_multiplexor_cons] at h
    by_cases hm : sig.is_multiplexor = true
    · simp only [hm, if_true] at h
      have hk : ¬ 1 ≤ k := by omega
      simp only [beforeSecondMultiplexor, hm, hk, if_true, if_false]
      rw [ih 1 (by omega)]
    · have hm0 : sig.is_multiplexor = false := by simpa using hm
      simp only [hm0, Bool.false_eq_true, if_false, Nat.add_zero] at h
      simp only [beforeSecondMultiplexor, hm0, Bool.false_eq_true, if_false]
      rw [ih k h]

theorem blockLoop_second_multiplexor (fails : Nat → Bool) (sigs : List signal_t)
    (st : BlockState)
    (h : 2 ≤ seen st.multiplexor + sigs.countP (fun sig => sig.is_multiplexor)) :
    blockLoop fails sigs st
      = Outcome.returned (-1) ⟨st.o.log ++ stamp fails st.o.log.length
          ((referenceBlocks st.last_bit
            ((beforeSecondMultiplexor (seen st.multiplexor) sigs).filter signal_t.plain)).map
              Write.BB)⟩ := by
  have hk : seen st.multiplexor ≤ 1 := by unfold seen; split <;> omega
  obtain ⟨m2, post, hsplit, hm2, hcount⟩ :=
    beforeSecondMultiplexor_split sigs (seen st.multiplexor) hk h
  obtain ⟨mx, hmx, hrun⟩ := blockLoop_running fails
    (beforeSecondMultiplexor (seen st.multiplexor) sigs) st (by omega)
  have hsome : ∃ m, mx = some m := by
    cases mx with
    | none => rw [seen_none] at hmx; omega
    | some m => exact ⟨m, rfl⟩
  obtain ⟨m, rfl⟩ := hsome
  conv_lhs => rw [hsplit]
  rw [blockLoop_append, hrun]
  simp only [blockLoop, hm2, if_true, error]

theorem msg2bsm_second_multiplexor (fails : Nat → Bool) (msg : can_msg_t) (o : Sink)
    (depth : Nat) (h : 2 ≤ msg.sigs.countP (fun sig => sig.is_multiplexor)) :
    msg2bsm fails msg o depth
      = (-1, ⟨(indent fails o depth).2.log ++ stamp fails (indent fails o depth).2.log.length
          (Write.BSM_MESSAGE_PREFIX msg.name msg.id (padding_size msg)
            :: (referenceLayout (beforeSecondMultiplexor 0 msg.sigs)).map Write.BB)⟩) := by
  have hloop := blockLoop_second_multiplexor fails msg.sigs
    ⟨0, none, ((indent fails o depth).2.put fails
      (Write.BSM_MESSAGE_PREFIX msg.name msg.id (quantize (raw_size msg.sigs)))).2⟩
    (by simpa [seen] using h)
  unfold msg2bsm
  simp only [hloop]
  simp [put_log, stamp, stamp_append, referenceLayout, padding_size, seen, Nat.add_comm 1]

theorem msg2bsm_attempted_open (fails : Nat → Bool) (msg : can_msg_t) (o : Sink)
    (depth : Nat) :
    ∃ rest, (msg2bsm fails msg o depth).2.attempted
      = (indent fails o depth).2.attempted
          ++ Write.BSM_MESSAGE_PREFIX msg.name msg.id (padding_size msg) :: rest := by
  by_cases h : 2 ≤ msg.sigs.countP (fun sig => sig.is_multiplexor)
  · refine ⟨(referenceLayout (beforeSecondMultiplexor 0 msg.sigs)).map Write.BB, ?_⟩
    rw [msg2bsm_second_multiplexor fails msg o depth h]
    simp [Sink.attempted, stamp_map_fst]
  · exact ⟨_, msg2bsm_attempted fails msg o depth (by unfold atMostOneMultiplexor; omega)⟩

/-! ## Lemmas on sorted signals -/

theorem totalSize_gapDescriptors (last_bit : Nat) (sig : signal_t) :
    totalSize (gapDescriptors last_bit sig) = sig.start_bit - last_bit := by
  unfold gapDescriptors
  split
  · exact totalSize_blockDescriptors _ _
  · simp [totalSize]; omega

theorem referenceBlocks_append (last_bit : Nat) (a b : List signal_t) :
    referenceBlocks last_bit (a ++ b)
      = referenceBlocks last_bit a ++ referenceBlocks (lastBitAfter last_bit a) b := by
  induction a generalizing last_bit with
  | nil => rfl
  | cons sig rest ih => simp [referenceBlocks, lastBitAfter, ih]

theorem specSweep_eq_sum (sigs : List signal_t) (last_bit acc : Nat) :
    specSweep sigs last_bit acc = acc + sumBitLengths sigs + gapBits last_bit sigs := by
  induction sigs generalizing last_bit acc with
  | nil => simp [specSweep, sumBitLengths, gapBits]
  | cons sig rest ih =>
    simp only [specSweep, ih, gapBits, sumBitLengths, List.map_cons, List.sum_cons]
    split <;> omega

theorem signal2bsm_attempted (fails : Nat → Bool) (sig : signal_t) (o : Sink) :
    (signal2bsm fails sig o).2.attempted
      = o.attempted ++ (blockDescriptors sig.name sig.bit_length).map Write.BB := by
  simp [Sink.attempted, signal2bsm_log, stamp_map_fst]

theorem end_le_total (sigs : List signal_t) (last_bit : Nat) :
    ∀ sig ∈ sigs,
      sig.start_bit + sig.bit_length ≤ last_bit + sumBitLengths sigs + gapBits last_bit sigs := by
  induction sigs generalizing last_bit with
  | nil => intro sig hsig; cases hsig
  | cons s rest ih =>
    intro sig hsig
    simp only [sumBitLengths, List.map_cons, List.sum_cons, gapBits]
    rcases List.mem_cons.mp hsig with rfl | hrest
    · omega
    · have := ih (s.start_bit + s.bit_length) sig hrest
      simp only [sumBitLengths] at this
      omega

theorem totalSize_referenceBlocksExact (sigs : List signal_t) (last_bit : Nat) :
    totalSize (referenceBlocksExact last_bit sigs)
      = sumBitLengths sigs + gapBits last_bit sigs := by
  induction sigs generalizing last_bit with
  | nil => rfl
  | cons s rest ih =>
    simp only [referenceBlocksExact, totalSize_append, totalSize_gapDescriptors,
      totalSize_blockDescriptors, ih, sumBitLengths, List.map_cons, List.sum_cons, gapBits]
    omega

theorem frameEnd_eq_total :
    ∀ (sigs : List signal_t) (last_bit : Nat), sortedDisjoint sigs →
      (∀ sig ∈ sigs.head?, last_bit ≤ sig.start_bit) →
      frameEnd last_bit sigs = last_bit + sumBitLengths sigs + gapBits last_bit sigs
  | [], _, _, _ => by simp [frameEnd, sumBitLengths, gapBits]
  | [s], last_bit, _, hfrom => by
    have h0 := hfrom s (by simp)
    simp only [frameEnd, sumBitLengths, gapBits, List.map_cons, List.map_nil, List.sum_cons,
      List.sum_nil]
    omega
  | s :: b :: rest, last_bit, hsorted, hfrom => by
    have h0 := hfrom s (by simp)
    have ih := frameEnd_eq_total (b :: rest) (s.start_bit + s.bit_length) hsorted.2
      (fun sig hsig => by
        simp only [List.head?_cons, Option.mem_def, Option.some.injEq] at hsig
        rw [← hsig]; exact hsorted.1)
    rw [frameEnd, ih]
    simp only [sumBitLengths, gapBits, List.map_cons, List.sum_cons]
    omega

theorem filter_plain_eq_self (sigs : List signal_t) (h : ∀ sig ∈ sigs, sig.plain = true) :
    sigs.filter signal_t.plain = sigs :=
  List.filter_eq_self.mpr h

theorem atMostOneMultiplexor_of_plain (sigs : List signal_t)
    (h : ∀ sig ∈ sigs, sig.plain = true) : atMostOneMultiplexor sigs := by
  unfold atMostOneMultiplexor
  rw [← filter_plain_eq_self sigs h, countP_multiplexor_filter_plain]
  omega

/-! ## Lemmas comparing the two loops -/

theorem total_filter_plain_le (sigs : List signal_t) (l1 l2 d : Nat)
    (h : ∀ x : Nat, x - l2 ≤ d + (x - l1)) :
    sumBitLengths (sigs.filter signal_t.plain) + gapBits l2 (sigs.filter signal_t.plain)
      ≤ d + (sumBitLengths sigs + gapBits l1 sigs) := by
  induction sigs generalizing l1 l2 d with
  | nil => simp [sumBitLengths, gapBits]
  | cons s rest ih =>
    by_cases hp : s.plain = true
    · have ih0 := ih (s.start_bit + s.bit_length) (s.start_bit + s.bit_length) 0
        (fun x => by omega)
      have hs := h s.start_bit
      simp only [List.filter_cons, hp, if_true, sumBitLengths, List.map_cons, List.sum_cons,
        gapBits] at ih0 ⊢
      omega
    · have ih1 := ih (s.start_bit + s.bit_length) l2
        (d + (s.start_bit - l1) + s.bit_length) (fun x => by have := h x; omega)
      simp only [List.filter_cons, hp, Bool.false_eq_true, if_false, sumBitLengths,
        List.map_cons, List.sum_cons, gapBits] at ih1 ⊢
      omega

theorem specRawSize_eq_total (sigs : List signal_t) :
    specRawSize sigs = sumBitLengths sigs + gapBits 0 sigs := by
  unfold specRawSize
  rw [specSweep_eq_sum, Nat.zero_add]

theorem referenceLayout_eq_exact (sigs : List signal_t) (hfit : specRawSize sigs < UINT_MODULUS) :
    referenceLayout sigs = referenceBlocksExact 0 (sigs.filter signal_t.plain) := by
  unfold referenceLayout
  refine referenceBlocks_eq_exact 0 _ (fun sig hsig => ?_)
  have h1 := end_le_total sigs 0 sig (List.mem_filter.mp hsig).1
  rw [specRawSize_eq_total] at hfit
  omega

theorem blockDescriptors_sizes (name : String) (n : Nat) (h1 : 1 ≤ n) (h2 : n ≤ 32) :
    ∀ d ∈ blockDescriptors name n, 1 ≤ d.size ∧ d.size ≤ 16 := by
  intro d hd
  unfold blockDescriptors at hd
  split at hd
  · simp only [List.mem_cons, List.mem_singleton, List.mem_nil_iff, or_false] at hd
    rcases hd with rfl | rfl
    · simp
    · simp only []
      omega
  · simp only [List.mem_singleton] at hd
    subst hd
    simp; omega

theorem referenceBlocksExact_sizes (sigs : List signal_t) (last_bit : Nat)
    (hlen : ∀ sig ∈ sigs, 1 ≤ sig.bit_length)
    (htotal : sumBitLengths sigs + gapBits last_bit sigs ≤ 32) :
    ∀ d ∈ referenceBlocksExact last_bit sigs, 1 ≤ d.size ∧ d.size ≤ 16 := by
  induction sigs generalizing last_bit with
  | nil => intro d hd; cases hd
  | cons s rest ih =>
    have hs := hlen s (List.mem_cons_self _ _)
    simp only [sumBitLengths, List.map_cons, List.sum_cons, gapBits] at htotal
    intro d hd
    simp only [referenceBlocksExact, List.mem_append] at hd
    rcases hd with (hgap | hown) | hrest
    · unfold gapDescriptors at hgap
      split at hgap
      · exact blockDescriptors_sizes _ _ (by omega) (by omega) d hgap
      · cases hgap
    · exact blockDescriptors_sizes _ _ hs (by omega) d hown
    · exact ih (s.start_bit + s.bit_length) (fun t ht => hlen t (List.mem_cons_of_mem _ ht))
        (by simp only [sumBitLengths]; omega) d hrest

/-! ## Lemmas on the document -/

theorem gains_refl (fails : Nat → Bool) (o : Sink) : o.gains fails o [] := by
  simp [Sink.gains, stamp]

theorem gains_trans (fails : Nat → Bool) (o o1 o2 : Sink) (a b : List Write)
    (h1 : o.gains fails o1 a) (h2 : o1.gains fails o2 b) : o.gains fails o2 (a ++ b) := by
  unfold Sink.gains at h1 h2 ⊢
  rw [h2, h1, stamp_append]
  simp [stamp_length, List.append_assoc]

theorem put_gains (fails : Nat → Bool) (o : Sink) (w : Write) :
    o.gains fails (o.put fails w).2 [w] := put_log fails o w

theorem written_of_gains (o o1 : Sink) (ws : List Write) (h : o.gains noFailure o1 ws) :
    o1.written = o.written ++ ws := by
  unfold Sink.gains at h
  simp [Sink.written, h, stamp_noFailure_written]

theorem attempted_of_gains (fails : Nat → Bool) (o o1 : Sink) (ws : List Write)
    (h : o.gains fails o1 ws) : o1.attempted = o.attempted ++ ws := by
  unfold Sink.gains at h
  simp [Sink.attempted, h, stamp_map_fst]

theorem comment_noFailure (o : Sink) (text : String) :
    (comment noFailure o 0 text).1 = 0
      ∧ o.gains noFailure (comment noFailure o 0 text).2 (commentWrites text) := by
  simp [comment, indent, Sink.put, noFailure, Sink.gains, commentWrites, stamp]

theorem msg2bsm_noFailure_gains (msg : can_msg_t) (o : Sink)
    (h : atMostOneMultiplexor msg.sigs) :
    o.gains noFailure (msg2bsm noFailure msg o 1).2 (messageWrites msg) := by
  unfold Sink.gains
  rw [msg2bsm_log noFailure msg o 1 h, indent_noFailure_log]
  simp [messageWrites, stamp, stamp_append, List.replicate_succ, Nat.add_comm 1]

theorem msg2bsm_noFailure_aborted (msg : can_msg_t) (o : Sink)
    (h : 2 ≤ msg.sigs.countP (fun sig => sig.is_multiplexor)) :
    (msg2bsm noFailure msg o 1).1 = -1
      ∧ o.gains noFailure (msg2bsm noFailure msg o 1).2 (abortedMessageWrites msg) := by
  rw [msg2bsm_second_multiplexor noFailure msg o 1 h, indent_noFailure_log]
  simp [Sink.gains, abortedMessageWrites, stamp, List.replicate_succ, Nat.add_comm 1]

theorem messagesLoop_noFailure (msgs : List can_msg_t) (o : Sink)
    (h : ∀ msg ∈ msgs, atMostOneMultiplexor msg.sigs) :
    (messagesLoop noFailure msgs o).1 = 0
      ∧ o.gains noFailure (messagesLoop noFailure msgs o).2
          (msgs.flatMap messageWrites ++ [Write.BSM_SUFFIX]) := by
  induction msgs generalizing o with
  | nil => exact ⟨rfl, by simpa [messagesLoop] using put_gains noFailure o Write.BSM_SUFFIX⟩
  | cons msg rest ih =>
    have hm := h msg (List.mem_cons_self _ _)
    have hrc : (msg2bsm noFailure msg o 1).1 = 0 := by
      rw [msg2bsm_noFailure_fst]
      unfold atMostOneMultiplexor at hm
      simp; omega
    obtain ⟨ih1, ih2⟩ := ih (msg2bsm noFailure msg o 1).2
      (fun m hmem => h m (List.mem_cons_of_mem _ hmem))
    simp only [messagesLoop, hrc, lt_irrefl, if_false]
    refine ⟨ih1, ?_⟩
    have := gains_trans noFailure _ _ _ _ _ (msg2bsm_noFailure_gains msg o hm) ih2
    simpa [List.flatMap_cons, List.append_assoc] using this

theorem messagesLoop_noFailure_aborted (pre post : List can_msg_t) (mk : can_msg_t) (o : Sink)
    (hpre : ∀ msg ∈ pre, atMostOneMultiplexor msg.sigs)
    (hk : 2 ≤ mk.sigs.countP (fun sig => sig.is_multiplexor)) :
    (messagesLoop noFailure (pre ++ mk :: post) o).1 = -1
      ∧ o.gains noFailure (messagesLoop noFailure (pre ++ mk :: post) o).2
          (pre.flatMap messageWrites ++ abortedMessageWrites mk) := by
  induction pre generalizing o with
  | nil =>
    obtain ⟨hrc, hg⟩ := msg2bsm_noFailure_aborted mk o hk
    simp only [List.nil_append, messagesLoop, hrc]
    exact ⟨rfl, by simpa using hg⟩
  | cons msg rest ih =>
    have hm := hpre msg (List.mem_cons_self _ _)
    have hrc : (msg2bsm noFailure msg o 1).1 = 0 := by
      rw [msg2bsm_noFailure_fst]
      unfold atMostOneMultiplexor at hm
      simp; omega
    obtain ⟨ih1, ih2⟩ := ih (msg2bsm noFailure msg o 1).2
      (fun m hmem => hpre m (List.mem_cons_of_mem _ hmem))
    simp only [List.cons_append, messagesLoop, hrc, lt_irrefl, if_false]
    refine ⟨ih1, ?_⟩
    have := gains_trans noFailure _ _ _ _ _ (msg2bsm_noFailure_gains msg o hm) ih2
    simpa [List.flatMap_cons, List.append_assoc] using this

theorem header_noFailure (o : Sink) (use_time_stamps : Bool) (stamp : String) :
    o.gains noFailure
      (if use_time_stamps then
        (comment noFailure ((comment noFailure o 0 provenance).2.put noFailure
          Write.BSM_PREFIX).2 0 ("Generated on: " ++ stamp)).2
      else ((comment noFailure o 0 provenance).2.put noFailure Write.BSM_PREFIX).2)
      (documentHeader use_time_stamps stamp) := by
  have h1 := (comment_noFailure o provenance).2
  have h2 := put_gains noFailure (comment noFailure o 0 provenance).2 Write.BSM_PREFIX
  have h12 := gains_trans noFailure _ _ _ _ _ h1 h2
  unfold documentHeader
  cases use_time_stamps with
  | false => simpa using h12
  | true =>
    have h3 := (comment_noFailure ((comment noFailure o 0 provenance).2.put noFailure
      Write.BSM_PREFIX).2 ("Generated on: " ++ stamp)).2
    simpa using gains_trans noFailure _ _ _ _ _ h12 h3

theorem indent_gains (fails : Nat → Bool) (o : Sink) (depth : Nat) :
    ∃ ws, o.gains fails (indent fails o depth).2 ws ∧ Write.BSM_SUFFIX ∉ ws := by
  obtain ⟨k, -, hlog⟩ := indent_log fails o depth
  exact ⟨List.replicate k Write.tab, hlog, by simp [List.mem_replicate]⟩

theorem comment_gains (fails : Nat → Bool) (o : Sink) (depth : Nat) (text : String) :
    ∃ ws, o.gains fails (comment fails o depth text).2 ws ∧ Write.BSM_SUFFIX ∉ ws := by
  obtain ⟨w0, h0, hn0⟩ := indent_gains fails o depth
  have h1 := gains_trans fails _ _ _ _ _ h0
    (put_gains fails (indent fails o depth).2 Write.commentOpen)
  have h2 := gains_trans fails _ _ _ _ _ h1
    (put_gains fails ((indent fails o depth).2.put fails Write.commentOpen).2
      (Write.commentText text))
  have h3 := gains_trans fails _ _ _ _ _ h2
    (put_gains fails (((indent fails o depth).2.put fails Write.commentOpen).2.put fails
      (Write.commentText text)).2 Write.commentClose)
  unfold comment
  simp only []
  split_ifs
  · exact ⟨_, h0, hn0⟩
  · exact ⟨_, h1, by simp [hn0]⟩
  · exact ⟨_, h2, by simp [hn0]⟩
  · exact ⟨_, h3, by simp [hn0]⟩
  · exact ⟨_, h3, by simp [hn0]⟩

theorem msg2bsm_gains (fails : Nat → Bool) (msg : can_msg_t) (o : Sink) (depth : Nat) :
    ∃ ws, o.gains fails (msg2bsm fails msg o depth).2 ws ∧ Write.BSM_SUFFIX ∉ ws := by
  obtain ⟨w0, h0, hn0⟩ := indent_gains fails o depth
  by_cases h : 2 ≤ msg.sigs.countP (fun sig => sig.is_multiplexor)
  · refine ⟨w0 ++ (Write.BSM_MESSAGE_PREFIX msg.name msg.id (padding_size msg)
        :: (referenceLayout (beforeSecondMultiplexor 0 msg.sigs)).map Write.BB), ?_, ?_⟩
    · refine gains_trans fails _ _ _ _ _ h0 ?_
      rw [msg2bsm_second_multiplexor fails msg o depth h]
      rfl
    · simp [hn0]
  · refine ⟨w0 ++ (Write.BSM_MESSAGE_PREFIX msg.name msg.id (padding_size msg)
        :: ((referenceLayout msg.sigs).map Write.BB ++ [Write.BSM_MESSAGE_SUFFIX])), ?_, ?_⟩
    · refine gains_trans fails _ _ _ _ _ h0 ?_
      exact msg2bsm_log fails msg o depth (by unfold atMostOneMultiplexor; omega)
    · simp [hn0]

theorem msg2bsm_fst_of_second_multiplexor (fails : Nat → Bool) (msg : can_msg_t) (o : Sink)
    (depth : Nat) (h : 2 ≤ msg.sigs.countP (fun sig => sig.is_multiplexor)) :
    (msg2bsm fails msg o depth).1 = -1 := by
  rw [msg2bsm_second_multiplexor fails msg o depth h]

theorem messagesLoop_aborted (fails : Nat → Bool) (pre post : List can_msg_t)
    (mk : can_msg_t) (o : Sink)
    (hk : 2 ≤ mk.sigs.countP (fun sig => sig.is_multiplexor)) :
    (messagesLoop fails (pre ++ mk :: post) o).1 = -1
      ∧ messagesLoop fails (pre ++ mk :: post) o = messagesLoop fails (pre ++ [mk]) o
      ∧ ∃ ws, o.gains fails (messagesLoop fails (pre ++ mk :: post) o).2 ws
          ∧ Write.BSM_SUFFIX ∉ ws := by
  induction pre generalizing o with
  | nil =>
    have hrc := msg2bsm_fst_of_second_multiplexor fails mk o 1 hk
    simp only [List.nil_append, messagesLoop, hrc]
    exact ⟨rfl, rfl, msg2bsm_gains fails mk o 1⟩
  | cons msg rest ih =>
    obtain ⟨w1, h1, hn1⟩ := msg2bsm_gains fails msg o 1
    simp only [List.cons_append, messagesLoop]
    split
    · exact ⟨rfl, rfl, w1, h1, hn1⟩
    · obtain ⟨ih1, ih2, w2, h2, hn2⟩ := ih (msg2bsm fails msg o 1).2
      exact ⟨ih1, ih2, w1 ++ w2, gains_trans fails _ _ _ _ _ h1 h2, by simp [hn1, hn2]⟩

theorem header_gains (fails : Nat → Bool) (o : Sink) (use_time_stamps : Bool)
    (stamp : String) :
    ∃ ws, o.gains fails
      (if use_time_stamps then
        (comment fails ((comment fails o 0 provenance).2.put fails
          Write.BSM_PREFIX).2 0 ("Generated on: " ++ stamp)).2
      else ((comment fails o 0 provenance).2.put fails Write.BSM_PREFIX).2) ws
      ∧ Write.BSM_SUFFIX ∉ ws := by
  obtain ⟨w1, h1, hn1⟩ := comment_gains fails o 0 provenance
  have h12 := gains_trans fails _ _ _ _ _ h1
    (put_gains fails (comment fails o 0 provenance).2 Write.BSM_PREFIX)
  cases use_time_stamps with
  | false => exact ⟨_, by simpa using h12, by simp [hn1]⟩
  | true =>
    obtain ⟨w3, h3, hn3⟩ := comment_gains fails ((comment fails o 0 provenance).2.put fails
      Write.BSM_PREFIX).2 0 ("Generated on: " ++ stamp)
    exact ⟨_, by simpa using gains_trans fails _ _ _ _ _ h12 h3, by simp [hn1, hn3]⟩

theorem printedInt_of_lt (n : Nat) (h : n < INT_LIMIT) : printedInt n = (n : Int) := by
  unfold printedInt
  rw [if_pos h]

theorem writtenSizes_of_lt (ds : List Descriptor) (h : ∀ d ∈ ds, d.size < INT_LIMIT) :
    writtenSizes ds = ds.map (fun d => (d.size : Int)) := by
  unfold writtenSizes
  refine List.map_congr_left (fun d hd => ?_)
  exact printedInt_of_lt d.size (h d hd)

/-- Claim C2 (padding size).  Whenever the `raw_size` of the first sweep over all
the signals of a message (multiplexor and multiplexed ones included) is at most
32, the `PaddingSize` that `msg2bsm` writes in the message-open template is the
smallest of 8, 16, 24, 32 that is at least `raw_size`; and a `raw_size` of at
most 32 in exact arithmetic is the value the code computes in `unsigned`. -/
theorem msg2bsm_padding_size_smallest (fails : Nat → Bool) (msg : can_msg_t) (o : Sink)
    (depth : Nat) (h : specRawSize msg.sigs ≤ 32 ∨ raw_size msg.sigs ≤ 32) :
    (∃ rest, (msg2bsm fails msg o depth).2.attempted
        = (indent fails o depth).2.attempted
          ++ Write.BSM_MESSAGE_PREFIX msg.name msg.id (padding_size msg) :: rest)
    ∧ IsLeast {v : Nat | v ∈ paddingValues ∧ raw_size msg.sigs ≤ v} (padding_size msg)
    ∧ (specRawSize msg.sigs ≤ 32 → raw_size msg.sigs = specRawSize msg.sigs) := by
  have hbridge : specRawSize msg.sigs ≤ 32 → raw_size msg.sigs = specRawSize msg.sigs :=
    fun hs => raw_size_eq_specRawSize msg.sigs (by unfold UINT_MODULUS; omega)
  have hraw : raw_size msg.sigs ≤ 32 := by
    rcases h with hs | hr
    · rw [hbridge hs]; exact hs
    · exact hr
  exact ⟨msg2bsm_attempted_open fails msg o depth, quantize_isLeast _ hraw, hbridge⟩

/-- Witness of claim C2: a message whose four signals, a multiplexor and a
multiplexed one among them, span 24 bits is written with `PaddingSize` 24. -/
theorem msg2bsm_padding_size_smallest_witness :
    (specRawSize exampleMultiplexed.sigs ≤ 32 ∨ raw_size exampleMultiplexed.sigs ≤ 32)
    ∧ IsLeast {v : Nat | v ∈ paddingValues ∧ raw_size exampleMultiplexed.sigs ≤ v}
        (padding_size exampleMultiplexed)
    ∧ padding_size exampleMultiplexed = 24 :=
  ⟨Or.inl (by decide),
    (msg2bsm_padding_size_smallest noFailure exampleMultiplexed Sink.empty 1
      (Or.inl (by decide))).2.1,
    by decide⟩

/-- Claim C5 (multiplexor error, raises-iff).  When every write to the sink
succeeds, `msg2bsm` returns -1 if and only if the signal list of the message has
at least two signals flagged `is_multiplexor`, and returns 0 if and only if it
has at most one, whatever the other signals are. -/
theorem msg2bsm_fails_iff_two_multiplexors (msg : can_msg_t) (o : Sink) (depth : Nat) :
    ((msg2bsm noFailure msg o depth).1 = -1
        ↔ 2 ≤ msg.sigs.countP (fun sig => sig.is_multiplexor))
    ∧ ((msg2bsm noFailure msg o depth).1 = 0 ↔ atMostOneMultiplexor msg.sigs) := by
  rw [msg2bsm_noFailure_fst]
  unfold atMostOneMultiplexor
  constructor <;> split <;> simp <;> omega

/-- Claim C6, as the code has it.  For a message with two or more signals
flagged `is_multiplexor`, `msg2bsm` returns -1 after having written the
indentation, the message-open template and the descriptors of the plain signals
declared before the second multiplexor (their gap blocks included); it writes
nothing after that, and no message-close template. -/
theorem msg2bsm_two_multiplexors_output (fails : Nat → Bool) (msg : can_msg_t) (o : Sink)
    (depth : Nat) (h : 2 ≤ msg.sigs.countP (fun sig => sig.is_multiplexor)) :
    (msg2bsm fails msg o depth).1 = -1
    ∧ (msg2bsm fails msg o depth).2.attempted
        = (indent fails o depth).2.attempted
          ++ Write.BSM_MESSAGE_PREFIX msg.name msg.id (padding_size msg)
            :: (referenceLayout (beforeSecondMultiplexor 0 msg.sigs)).map Write.BB
    ∧ (msg2bsm noFailure msg o depth).2.written
        = o.written ++ List.replicate depth Write.tab
          ++ Write.BSM_MESSAGE_PREFIX msg.name msg.id (padding_size msg)
            :: (referenceLayout (beforeSecondMultiplexor 0 msg.sigs)).map Write.BB := by
  refine ⟨?_, ?_, ?_⟩
  · rw [msg2bsm_second_multiplexor fails msg o depth h]
  · rw [msg2bsm_second_multiplexor fails msg o depth h]
    simp [Sink.attempted, stamp_map_fst]
  · rw [msg2bsm_second_multiplexor noFailure msg o depth h, indent_noFailure_log]
    simp only [Sink.written, List.filter_append, List.map_append, stamp_noFailure_written]

/-- Witness of claim C6 as amended: in the message `A, m1, m2, B` with the two
multiplexors `m1` and `m2`, the descriptor of `A` is written and nothing of `B`. -/
theorem msg2bsm_two_multiplexors_output_witness :
    2 ≤ exampleTwoMultiplexors.sigs.countP (fun sig => sig.is_multiplexor)
    ∧ (msg2bsm noFailure exampleTwoMultiplexors Sink.empty 1).1 = -1
    ∧ (msg2bsm noFailure exampleTwoMultiplexors Sink.empty 1).2.attempted
        = [Write.tab, Write.BSM_MESSAGE_PREFIX "M" 1 24, Write.BB ⟨"A", 0, 8⟩] :=
  ⟨by decide,
    (msg2bsm_two_multiplexors_output noFailure exampleTwoMultiplexors Sink.empty 1
      (by decide)).1,
    (msg2bsm_two_multiplexors_output noFailure exampleTwoMultiplexors Sink.empty 1
      (by decide)).2.1.trans (by decide)⟩

/-- Claim C6 as stated fails: the message `A, m1, m2, B` has two multiplexors,
`msg2bsm` returns -1 on it, and the stream, empty before the call, then holds
the tab, the message-open template and the descriptor of `A`. -/
theorem msg2bsm_two_multiplexors_not_atomic :
    2 ≤ exampleTwoMultiplexors.sigs.countP (fun sig => sig.is_multiplexor)
    ∧ (msg2bsm noFailure exampleTwoMultiplexors Sink.empty 1).1 = -1
    ∧ (msg2bsm noFailure exampleTwoMultiplexors Sink.empty 1).2.written
        = [Write.tab, Write.BSM_MESSAGE_PREFIX "M" 1 24, Write.BB ⟨"A", 0, 8⟩]
    ∧ (msg2bsm noFailure exampleTwoMultiplexors Sink.empty 1).2.written
        ≠ Sink.empty.written := by
  decide

/-- Claim C7 (multiplexed signals are flattened out).  For a message with at
most one multiplexor the descriptors `msg2bsm` writes are those it writes for
the same message with every multiplexed signal and the multiplexor deleted from
the signal list: they are the reference layout of the remaining signals, so the
deleted signals yield no descriptor and take no part in the gaps. -/
theorem msg2bsm_multiplexed_flattened (fails : Nat → Bool) (msg : can_msg_t) (depth : Nat)
    (h : atMostOneMultiplexor msg.sigs) :
    descriptors (emitted fails msg depth)
        = descriptors
            (emitted fails ⟨msg.name, msg.id, msg.sigs.filter signal_t.plain⟩ depth)
    ∧ descriptors (emitted fails msg depth)
        = referenceBlocks 0 (msg.sigs.filter signal_t.plain) := by
  have hfiltered : atMostOneMultiplexor (msg.sigs.filter signal_t.plain) := by
    unfold atMostOneMultiplexor
    rw [countP_multiplexor_filter_plain]
    omega
  rw [descriptors_emitted fails msg depth h,
    descriptors_emitted fails ⟨msg.name, msg.id, msg.sigs.filter signal_t.plain⟩ depth hfiltered]
  simp [referenceLayout, List.filter_filter]

/-- Witness of claim C7: the message `A, mode, x, B` with the multiplexor `mode`
and the multiplexed `x` writes the descriptors of `A`, of the gap left by the
two deleted signals, and of `B`. -/
theorem msg2bsm_multiplexed_flattened_witness :
    atMostOneMultiplexor exampleMultiplexed.sigs
    ∧ descriptors (emitted noFailure exampleMultiplexed 1)
        = descriptors (emitted noFailure
            ⟨exampleMultiplexed.name, exampleMultiplexed.id,
              exampleMultiplexed.sigs.filter signal_t.plain⟩ 1)
    ∧ descriptors (emitted noFailure exampleMultiplexed 1)
        = [⟨"A", 0, 8⟩, ⟨"UNKNOWN", 0, 8⟩, ⟨"B", 0, 8⟩] :=
  ⟨by decide,
    (msg2bsm_multiplexed_flattened noFailure exampleMultiplexed 1 (by decide)).1,
    by decide⟩

/-- Claim C8 at a message with one 40 bit signal: `msg2bsm` writes `PaddingSize`
40, which is none of 8, 16, 24, 32. -/
theorem msg2bsm_padding_size_oversized :
    (msg2bsm noFailure exampleOversized Sink.empty 1).2.written
        = [Write.tab, Write.BSM_MESSAGE_PREFIX "M" 1 40, Write.BB ⟨"A (LSB)", 0, 16⟩,
            Write.BB ⟨"A (MSB)", 0, 24⟩, Write.BSM_MESSAGE_SUFFIX]
    ∧ padding_size exampleOversized = 40
    ∧ padding_size exampleOversized ∉ paddingValues := by
  decide

/-- Claim C9, as the code has it.  For a message with no multiplexor or
multiplexed signal whose signals do not overlap and are sorted by `start_bit` in
declaration order, the `PaddingSize` written is the smallest of 8, 16, 24, 32
that is at least the sum of the bit lengths of the signals plus the gap bits
before them, whenever that total is at most 32; the total is the `raw_size` of
the first sweep, the end `start_bit + bit_length` of the last signal, and the
sum of the sizes of the descriptors written. -/
theorem msg2bsm_padding_size_sorted (fails : Nat → Bool) (msg : can_msg_t) (o : Sink)
    (depth : Nat) (hplain : ∀ sig ∈ msg.sigs, sig.plain = true)
    (hsorted : sortedDisjoint msg.sigs)
    (htotal : sumBitLengths msg.sigs + gapBits 0 msg.sigs ≤ 32) :
    (∃ rest, (msg2bsm fails msg o depth).2.attempted
        = (indent fails o depth).2.attempted
          ++ Write.BSM_MESSAGE_PREFIX msg.name msg.id (padding_size msg) :: rest)
    ∧ IsLeast {v : Nat | v ∈ paddingValues ∧ sumBitLengths msg.sigs + gapBits 0 msg.sigs ≤ v}
        (padding_size msg)
    ∧ raw_size msg.sigs = sumBitLengths msg.sigs + gapBits 0 msg.sigs
    ∧ frameEnd 0 msg.sigs = sumBitLengths msg.sigs + gapBits 0 msg.sigs
    ∧ totalSize (descriptors (emitted fails msg depth))
        = sumBitLengths msg.sigs + gapBits 0 msg.sigs := by
  have hspec : specRawSize msg.sigs = sumBitLengths msg.sigs + gapBits 0 msg.sigs := by
    unfold specRawSize
    rw [specSweep_eq_sum, Nat.zero_add]
  have hraw : raw_size msg.sigs = sumBitLengths msg.sigs + gapBits 0 msg.sigs := by
    rw [← hspec]
    exact raw_size_eq_specRawSize msg.sigs (by rw [hspec]; unfold UINT_MODULUS; omega)
  refine ⟨msg2bsm_attempted_open fails msg o depth, ?_, hraw, ?_, ?_⟩
  · rw [← hraw]
    exact quantize_isLeast _ (by rw [hraw]; exact htotal)
  · rw [frameEnd_eq_total msg.sigs 0 hsorted (fun _ _ => Nat.zero_le _), Nat.zero_add]
  · rw [descriptors_emitted fails msg depth (atMostOneMultiplexor_of_plain _ hplain),
      referenceLayout, filter_plain_eq_self _ hplain,
      referenceBlocks_eq_exact 0 msg.sigs (fun sig hsig => by
        have := end_le_total msg.sigs 0 sig hsig
        unfold UINT_MODULUS
        omega),
      totalSize_referenceBlocksExact]

/-- Witness of claim C9 as amended: the message `Speed`, id 100, with the signal
`kph` at bit 0 of 12 bits is written with `PaddingSize` 16 and the one
descriptor `kph` of size 12. -/
theorem msg2bsm_padding_size_sorted_witness :
    (∀ sig ∈ exampleSpeed.sigs, sig.plain = true)
    ∧ sortedDisjoint exampleSpeed.sigs
    ∧ sumBitLengths exampleSpeed.sigs + gapBits 0 exampleSpeed.sigs ≤ 32
    ∧ IsLeast {v : Nat | v ∈ paddingValues
          ∧ sumBitLengths exampleSpeed.sigs + gapBits 0 exampleSpeed.sigs ≤ v}
        (padding_size exampleSpeed)
    ∧ (msg2bsm noFailure exampleSpeed Sink.empty 1).2.written
        = [Write.tab, Write.BSM_MESSAGE_PREFIX "Speed" 100 16, Write.BB ⟨"kph", 0, 12⟩,
            Write.BSM_MESSAGE_SUFFIX] :=
  ⟨by decide, by decide, by decide,
    (msg2bsm_padding_size_sorted noFailure exampleSpeed Sink.empty 1 (by decide) (by decide)
      (by decide)).2.1,
    by decide⟩

/-- Claim C9 as stated fails: the message with the single plain signal `S` at
bit 8 of 8 bits has sorted signals that do not overlap and bit lengths summing
to 8, of which the smallest of 8, 16, 24, 32 at least as large is 8, yet its
`PaddingSize` is 16. -/
theorem msg2bsm_padding_size_counts_gaps :
    (∀ sig ∈ exampleGap.sigs, sig.plain = true)
    ∧ sortedDisjoint exampleGap.sigs
    ∧ sumBitLengths exampleGap.sigs = 8
    ∧ padding_size exampleGap = 16
    ∧ ¬ IsLeast {v : Nat | v ∈ paddingValues ∧ sumBitLengths exampleGap.sigs ≤ v}
        (padding_size exampleGap) := by
  refine ⟨by decide, by decide, by decide, by decide, fun h => ?_⟩
  have h8 : (8 : Nat) ∈ {v : Nat | v ∈ paddingValues ∧ sumBitLengths exampleGap.sigs ≤ v} :=
    ⟨by decide, by decide⟩
  have hle := h.2 h8
  have hp : padding_size exampleGap = 16 := by decide
  omega

/-- Claim C10, as the code has it.  When the second loop of `msg2bsm` meets a
plain signal with a void before it (`last_bit < start_bit`), it writes for the
void, before the signal's own block, one descriptor named exactly `UNKNOWN` when
the void is at most 16 bits wide, and the two descriptors `UNKNOWN (LSB)` of 16
bits and `UNKNOWN (MSB)` of the remaining bits when it is wider. -/
theorem msg2bsm_gap_names (fails : Nat → Bool) (sig : signal_t) (st : BlockState)
    (hplain : sig.plain = true) (hgap : st.last_bit < sig.start_bit) :
    (signal2bsm fails (unknownsig st.last_bit sig) st.o).2.attempted
        = st.o.attempted ++
          (if sig.start_bit - st.last_bit ≤ 16 then
            [Write.BB ⟨"UNKNOWN", 0, sig.start_bit - st.last_bit⟩]
          else
            [Write.BB ⟨"UNKNOWN (LSB)", 0, 16⟩,
              Write.BB ⟨"UNKNOWN (MSB)", 0, sig.start_bit - st.last_bit - 16⟩])
    ∧ blockLoop fails [sig] st
        = Outcome.running ⟨uadd sig.start_bit sig.bit_length, st.multiplexor,
            (signal2bsm fails sig (signal2bsm fails (unknownsig st.last_bit sig) st.o).2).2⟩ := by
  constructor
  · have hatt := (signal2bsm_attempted fails (unknownsig st.last_bit sig) st.o)
    rw [hatt]
    simp only [unknownsig, blockDescriptors]
    by_cases hw : sig.start_bit - st.last_bit ≤ 16
    · have hw2 : ¬ sig.start_bit - st.last_bit > 16 := by omega
      simp only [hw, hw2, if_true, if_false, List.map_cons, List.map_nil]
    · have hw2 : sig.start_bit - st.last_bit > 16 := by omega
      simp only [hw, hw2, if_true, if_false, List.map_cons, List.map_nil]
      rfl
  · have hp := hplain
    simp only [signal_t.plain, Bool.and_eq_true, Bool.not_eq_true'] at hp
    simp only [blockLoop, hp.1, hp.2, hgap, signal2bsm_fst, Bool.false_eq_true, if_false,
      if_true, lt_irrefl]

/-- Witness of claim C10 as amended: a void of 8 bits before the signal `S` is
written as the one descriptor `UNKNOWN` of size 8. -/
theorem msg2bsm_gap_names_witness :
    (plainSignal "S" 8 8).plain = true
    ∧ (BlockState.mk 0 none Sink.empty).last_bit < (plainSignal "S" 8 8).start_bit
    ∧ (signal2bsm noFailure (unknownsig 0 (plainSignal "S" 8 8)) Sink.empty).2.attempted
        = [Write.BB ⟨"UNKNOWN", 0, 8⟩] :=
  ⟨by decide, by decide,
    (msg2bsm_gap_names noFailure (plainSignal "S" 8 8) ⟨0, none, Sink.empty⟩ (by decide)
      (by decide)).1.trans (by decide)⟩

/-- Claim C10 as stated fails: for the signal `S` at bit 20 the second loop
infers a gap of 20 bits, and the two descriptors written for it are named
`UNKNOWN (LSB)` and `UNKNOWN (MSB)`, not `UNKNOWN`. -/
theorem msg2bsm_wide_gap_names :
    (signal2bsm noFailure (unknownsig 0 (plainSignal "S" 20 8)) Sink.empty).2.attempted
        = [Write.BB ⟨"UNKNOWN (LSB)", 0, 16⟩, Write.BB ⟨"UNKNOWN (MSB)", 0, 4⟩]
    ∧ descriptors (emitted noFailure exampleWideGap 1)
        = [⟨"UNKNOWN (LSB)", 0, 16⟩, ⟨"UNKNOWN (MSB)", 0, 4⟩, ⟨"S", 0, 8⟩]
    ∧ ¬ (∀ d ∈ descriptors
          (signal2bsm noFailure (unknownsig 0 (plainSignal "S" 20 8)) Sink.empty).2.attempted,
        d.name = "UNKNOWN") := by
  decide

/-- Claim C15, as the code has it.  For a message whose first-sweep `raw_size`
is between 25 and 32 inclusive the fourth branch of the quantisation matches,
and the `PaddingSize` written is 32. -/
theorem msg2bsm_padding_size_25_to_32 (fails : Nat → Bool) (msg : can_msg_t) (o : Sink)
    (depth : Nat)
    (h : (25 ≤ raw_size msg.sigs ∧ raw_size msg.sigs ≤ 32)
      ∨ (25 ≤ specRawSize msg.sigs ∧ specRawSize msg.sigs ≤ 32)) :
    padding_size msg = 32
    ∧ ∃ rest, (msg2bsm fails msg o depth).2.attempted
        = (indent fails o depth).2.attempted
          ++ Write.BSM_MESSAGE_PREFIX msg.name msg.id 32 :: rest := by
  have hraw : 25 ≤ raw_size msg.sigs ∧ raw_size msg.sigs ≤ 32 := by
    rcases h with hr | hs
    · exact hr
    · rw [raw_size_eq_specRawSize msg.sigs (by unfold UINT_MODULUS; omega)]
      exact hs
  have hp : padding_size msg = 32 := by
    unfold padding_size quantize
    split_ifs <;> omega
  refine ⟨hp, ?_⟩
  obtain ⟨rest, hrest⟩ := msg2bsm_attempted_open fails msg o depth
  exact ⟨rest, by rw [hrest, hp]⟩

/-- Witness of claim C15 as amended: a message with one 28 bit signal is written
with `PaddingSize` 32. -/
theorem msg2bsm_padding_size_25_to_32_witness :
    ((25 ≤ raw_size exampleWide.sigs ∧ raw_size exampleWide.sigs ≤ 32)
      ∨ (25 ≤ specRawSize exampleWide.sigs ∧ specRawSize exampleWide.sigs ≤ 32))
    ∧ padding_size exampleWide = 32 :=
  ⟨Or.inl (by decide),
    (msg2bsm_padding_size_25_to_32 noFailure exampleWide Sink.empty 1 (Or.inl (by decide))).1⟩

/-- Claim C15 as stated fails: the message with one 28 bit signal has `raw_size`
28, between 25 and 32, and `msg2bsm` writes `PaddingSize` 32 for it, not 24. -/
theorem msg2bsm_padding_size_28_bits :
    raw_size exampleWide.sigs = 28
    ∧ specRawSize exampleWide.sigs = 28
    ∧ (msg2bsm noFailure exampleWide Sink.empty 1).2.written
        = [Write.tab, Write.BSM_MESSAGE_PREFIX "M" 1 32, Write.BB ⟨"A (LSB)", 0, 16⟩,
            Write.BB ⟨"A (MSB)", 0, 12⟩, Write.BSM_MESSAGE_SUFFIX]
    ∧ padding_size exampleWide ≠ 24 := by
  decide

/-- Claim C18, as the code has it.  For a message with at most one multiplexor
whose signals all have `bit_length >= 1` and whose first-sweep `raw_size`,
computed without overflow of the type `unsigned`, is at most 32, every
descriptor written has a size between 1 and 16 inclusive. -/
theorem msg2bsm_descriptor_sizes (fails : Nat → Bool) (msg : can_msg_t) (depth : Nat)
    (hmux : atMostOneMultiplexor msg.sigs)
    (hlen : ∀ sig ∈ msg.sigs, 1 ≤ sig.bit_length)
    (hfit : specRawSize msg.sigs < UINT_MODULUS)
    (hraw : raw_size msg.sigs ≤ 32) :
    ∀ d ∈ descriptors (emitted fails msg depth), 1 ≤ d.size ∧ d.size ≤ 16 := by
  rw [descriptors_emitted fails msg depth hmux, referenceLayout_eq_exact msg.sigs hfit]
  have hspec : raw_size msg.sigs = sumBitLengths msg.sigs + gapBits 0 msg.sigs := by
    rw [raw_size_eq_specRawSize msg.sigs hfit, specRawSize_eq_total]
  have hle := total_filter_plain_le msg.sigs 0 0 0 (fun x => by omega)
  exact referenceBlocksExact_sizes _ 0
    (fun sig hsig => hlen sig (List.mem_filter.mp hsig).1) (by omega)

/-- Witness of claim C18 as amended: in the message `A, mode, x, B` the three
descriptors have size 8. -/
theorem msg2bsm_descriptor_sizes_witness :
    atMostOneMultiplexor exampleMultiplexed.sigs
    ∧ (∀ sig ∈ exampleMultiplexed.sigs, 1 ≤ sig.bit_length)
    ∧ specRawSize exampleMultiplexed.sigs < UINT_MODULUS
    ∧ raw_size exampleMultiplexed.sigs ≤ 32
    ∧ (∀ d ∈ descriptors (emitted noFailure exampleMultiplexed 1), 1 ≤ d.size ∧ d.size ≤ 16)
    ∧ descriptors (emitted noFailure exampleMultiplexed 1)
        = [⟨"A", 0, 8⟩, ⟨"UNKNOWN", 0, 8⟩, ⟨"B", 0, 8⟩] :=
  ⟨by decide, by decide, by decide, by decide,
    msg2bsm_descriptor_sizes noFailure exampleMultiplexed 1 (by decide) (by decide) (by decide)
      (by decide),
    by decide⟩

/-- Claim C18 as stated fails: the message with the one signal `A` of 8 bits at
bit 4294967295 has no multiplexor and no empty signal, its `raw_size` wraps
around to 7 in the first loop, and the second descriptor written for the void
before `A` has size 4294967279. -/
theorem msg2bsm_descriptor_sizes_wrapped :
    atMostOneMultiplexor exampleWrapped.sigs
    ∧ (∀ sig ∈ exampleWrapped.sigs, sig.wf ∧ 1 ≤ sig.bit_length)
    ∧ raw_size exampleWrapped.sigs = 7
    ∧ padding_size exampleWrapped = 8
    ∧ descriptors (emitted noFailure exampleWrapped 1)
        = [⟨"UNKNOWN (LSB)", 0, 16⟩, ⟨"UNKNOWN (MSB)", 0, 4294967279⟩, ⟨"A", 0, 8⟩]
    ∧ ¬ (∀ d ∈ descriptors (emitted noFailure exampleWrapped 1), 1 ≤ d.size ∧ d.size ≤ 16) := by
  decide

/-- Claim C14 (no trailing gap).  For a message with at most one multiplexor
whose last signal, in declaration order, that is neither multiplexor nor
multiplexed is `last`, the descriptors written end with those of the own block
of `last`, and the message-close template is the write that follows them, also
when fewer bits than `PaddingSize` have been written; a message with no such
signal has the message-close template right after the message-open template. -/
theorem msg2bsm_no_trailing_gap (fails : Nat → Bool) (msg : can_msg_t) (o : Sink)
    (depth : Nat) (hmux : atMostOneMultiplexor msg.sigs) :
    (∀ last, (msg.sigs.filter signal_t.plain).getLast? = some last →
      ∃ init, msg.sigs.filter signal_t.plain = init ++ [last]
        ∧ (msg2bsm fails msg o depth).2.attempted
          = (indent fails o depth).2.attempted
            ++ Write.BSM_MESSAGE_PREFIX msg.name msg.id (padding_size msg)
              :: ((referenceBlocks 0 init ++ gapDescriptors (lastBitAfter 0 init) last).map
                    Write.BB
                  ++ (blockDescriptors last.name last.bit_length).map Write.BB
                  ++ [Write.BSM_MESSAGE_SUFFIX]))
    ∧ (msg.sigs.filter signal_t.plain = [] →
        (msg2bsm fails msg o depth).2.attempted
          = (indent fails o depth).2.attempted
            ++ [Write.BSM_MESSAGE_PREFIX msg.name msg.id (padding_size msg),
                Write.BSM_MESSAGE_SUFFIX]) := by
  have hatt := msg2bsm_attempted fails msg o depth hmux
  constructor
  · intro last hlast
    obtain ⟨init, hinit⟩ := List.getLast?_eq_some_iff.mp hlast
    refine ⟨init, hinit, ?_⟩
    rw [hatt, referenceLayout, hinit, referenceBlocks_append]
    simp [referenceBlocks, List.append_assoc]
  · intro hnone
    rw [hatt, referenceLayout, hnone]
    rfl

/-- Witness of claim C14: the message `Speed` is written with `PaddingSize` 16
and the one descriptor `kph` of 12 bits, followed at once by the message-close
template. -/
theorem msg2bsm_no_trailing_gap_witness :
    atMostOneMultiplexor exampleSpeed.sigs
    ∧ (exampleSpeed.sigs.filter signal_t.plain).getLast? = some (plainSignal "kph" 0 12)
    ∧ (∃ init, exampleSpeed.sigs.filter signal_t.plain = init ++ [plainSignal "kph" 0 12]
        ∧ (msg2bsm noFailure exampleSpeed Sink.empty 1).2.attempted
          = (indent noFailure Sink.empty 1).2.attempted
            ++ Write.BSM_MESSAGE_PREFIX exampleSpeed.name exampleSpeed.id
                (padding_size exampleSpeed)
              :: ((referenceBlocks 0 init
                      ++ gapDescriptors (lastBitAfter 0 init) (plainSignal "kph" 0 12)).map
                    Write.BB
                  ++ (blockDescriptors (plainSignal "kph" 0 12).name
                      (plainSignal "kph" 0 12).bit_length).map Write.BB
                  ++ [Write.BSM_MESSAGE_SUFFIX]))
    ∧ (msg2bsm noFailure exampleSpeed Sink.empty 1).2.attempted
        = [Write.tab, Write.BSM_MESSAGE_PREFIX "Speed" 100 16, Write.BB ⟨"kph", 0, 12⟩,
            Write.BSM_MESSAGE_SUFFIX] :=
  ⟨by decide, by decide,
    (msg2bsm_no_trailing_gap noFailure exampleSpeed Sink.empty 1 (by decide)).1
      (plainSignal "kph" 0 12) (by decide),
    by decide⟩

/-- Claim C11 at the empty message list and at the document of the messages
`Speed` and `M`, written without timestamp and with every write succeeding: the
first thing `dbc2bsm` writes is the provenance comment, and the document prefix,
which opens with the XML declaration, comes after it. -/
theorem dbc2bsm_comment_before_document_open :
    (dbc2bsm noFailure ⟨[]⟩ Sink.empty false "").2.written
        = [Write.commentOpen, Write.commentText provenance, Write.commentClose,
            Write.BSM_PREFIX, Write.BSM_SUFFIX]
    ∧ (dbc2bsm noFailure ⟨[]⟩ Sink.empty false "").2.written.head? ≠ some Write.BSM_PREFIX
    ∧ (dbc2bsm noFailure ⟨[]⟩ Sink.empty false "").2.written
        ≠ [Write.BSM_PREFIX, Write.commentOpen, Write.commentText provenance,
            Write.commentClose, Write.BSM_SUFFIX]
    ∧ (dbc2bsm noFailure exampleDocument Sink.empty false "").2.written
        = [Write.commentOpen, Write.commentText provenance, Write.commentClose,
            Write.BSM_PREFIX,
            Write.tab, Write.BSM_MESSAGE_PREFIX "Speed" 100 16, Write.BB ⟨"kph", 0, 12⟩,
            Write.BSM_MESSAGE_SUFFIX,
            Write.tab, Write.BSM_MESSAGE_PREFIX "M" 1 16, Write.BB ⟨"UNKNOWN", 0, 8⟩,
            Write.BB ⟨"S", 0, 8⟩, Write.BSM_MESSAGE_SUFFIX,
            Write.BSM_SUFFIX] := by
  decide

/-- Claim C12 (abort on the first failing message).  When message `mk` is the
first of the list with two multiplexors, `dbc2bsm` returns -1 whatever writes
fail, what it does is what it does for the list cut after `mk`, and it makes no
write of the document suffix; with every write succeeding the stream gains the
header, the renderings of the messages before `mk` and the part of `mk` written
before its second multiplexor.  For a list in which no message fails, and with
every write succeeding, `dbc2bsm` returns 0. -/
theorem dbc2bsm_abort_on_failing_message (fails : Nat → Bool) (pre post : List can_msg_t)
    (mk : can_msg_t) (o : Sink) (use_time_stamps : Bool) (stamp : String)
    (hpre : ∀ msg ∈ pre, atMostOneMultiplexor msg.sigs)
    (hk : 2 ≤ mk.sigs.countP (fun sig => sig.is_multiplexor)) :
    (dbc2bsm fails ⟨pre ++ mk :: post⟩ o use_time_stamps stamp).1 = -1
    ∧ dbc2bsm fails ⟨pre ++ mk :: post⟩ o use_time_stamps stamp
        = dbc2bsm fails ⟨pre ++ [mk]⟩ o use_time_stamps stamp
    ∧ (∃ ws, (dbc2bsm fails ⟨pre ++ mk :: post⟩ o use_time_stamps stamp).2.attempted
          = o.attempted ++ ws ∧ Write.BSM_SUFFIX ∉ ws)
    ∧ (dbc2bsm noFailure ⟨pre ++ mk :: post⟩ o use_time_stamps stamp).2.written
        = o.written
          ++ (documentHeader use_time_stamps stamp ++ pre.flatMap messageWrites
            ++ abortedMessageWrites mk)
    ∧ (dbc2bsm noFailure ⟨pre⟩ o use_time_stamps stamp).1 = 0 := by
  obtain ⟨wh, hh, hnh⟩ := header_gains fails o use_time_stamps stamp
  obtain ⟨hrc, hcut, wl, hl, hnl⟩ := messagesLoop_aborted fails pre post mk
    (if use_time_stamps then
      (comment fails ((comment fails o 0 provenance).2.put fails
        Write.BSM_PREFIX).2 0 ("Generated on: " ++ stamp)).2
    else ((comment fails o 0 provenance).2.put fails Write.BSM_PREFIX).2) hk
  refine ⟨hrc, hcut, ⟨wh ++ wl, ?_, by simp [hnh, hnl]⟩, ?_, ?_⟩
  · exact attempted_of_gains fails _ _ _ (gains_trans fails _ _ _ _ _ hh hl)
  · have hh0 := header_noFailure o use_time_stamps stamp
    obtain ⟨-, hl0⟩ := messagesLoop_noFailure_aborted pre post mk _ hpre hk
    have hw := written_of_gains _ _ _ (gains_trans noFailure _ _ _ _ _ hh0 hl0)
    simp only [List.append_assoc] at hw ⊢
    exact hw
  · exact (messagesLoop_noFailure pre _ hpre).1

/-- Witness of claim C12: in the document `Speed`, `A m1 m2 B`, `M` the second
message has two multiplexors; `dbc2bsm` returns -1 and the stream ends with the
descriptor of `A`. -/
theorem dbc2bsm_abort_on_failing_message_witness :
    (∀ msg ∈ [exampleSpeed], atMostOneMultiplexor msg.sigs)
    ∧ 2 ≤ exampleTwoMultiplexors.sigs.countP (fun sig => sig.is_multiplexor)
    ∧ (dbc2bsm noFailure ⟨[exampleSpeed] ++ exampleTwoMultiplexors :: [exampleGap]⟩
        Sink.empty false "").1 = -1
    ∧ (dbc2bsm noFailure exampleAbortingDocument Sink.empty false "").2.written
        = [Write.commentOpen, Write.commentText provenance, Write.commentClose,
            Write.BSM_PREFIX,
            Write.tab, Write.BSM_MESSAGE_PREFIX "Speed" 100 16, Write.BB ⟨"kph", 0, 12⟩,
            Write.BSM_MESSAGE_SUFFIX,
            Write.tab, Write.BSM_MESSAGE_PREFIX "M" 1 24, Write.BB ⟨"A", 0, 8⟩] :=
  ⟨by decide, by decide,
    (dbc2bsm_abort_on_failing_message noFailure [exampleSpeed] [exampleGap]
      exampleTwoMultiplexors Sink.empty false "" (by decide) (by decide)).1,
    by decide⟩

/-- Claim C13 at a document of the one message `Speed`, written without
timestamp.  When the write of the block descriptor (call number 6) fails,
`dbc2bsm` goes on to write the message-close template and the document suffix
and returns 0; so it does when the write of the document prefix (call number 3)
fails.  Only when the write of the message-close template (call number 7) fails
does it stop and return -1. -/
theorem dbc2bsm_write_failure_ignored :
    dbc2bsm (failAt 6) ⟨[exampleSpeed]⟩ Sink.empty false ""
        = (0, ⟨[(Write.commentOpen, true), (Write.commentText provenance, true),
            (Write.commentClose, true), (Write.BSM_PREFIX, true), (Write.tab, true),
            (Write.BSM_MESSAGE_PREFIX "Speed" 100 16, true),
            (Write.BB ⟨"kph", 0, 12⟩, false),
            (Write.BSM_MESSAGE_SUFFIX, true), (Write.BSM_SUFFIX, true)]⟩)
    ∧ dbc2bsm (failAt 3) ⟨[exampleSpeed]⟩ Sink.empty false ""
        = (0, ⟨[(Write.commentOpen, true), (Write.commentText provenance, true),
            (Write.commentClose, true), (Write.BSM_PREFIX, false), (Write.tab, true),
            (Write.BSM_MESSAGE_PREFIX "Speed" 100 16, true),
            (Write.BB ⟨"kph", 0, 12⟩, true),
            (Write.BSM_MESSAGE_SUFFIX, true), (Write.BSM_SUFFIX, true)]⟩)
    ∧ dbc2bsm (failAt 7) ⟨[exampleSpeed]⟩ Sink.empty false ""
        = (-1, ⟨[(Write.commentOpen, true), (Write.commentText provenance, true),
            (Write.commentClose, true), (Write.BSM_PREFIX, true), (Write.tab, true),
            (Write.BSM_MESSAGE_PREFIX "Speed" 100 16, true),
            (Write.BB ⟨"kph", 0, 12⟩, true),
            (Write.BSM_MESSAGE_SUFFIX, false)]⟩) := by
  decide

end DBCC
